import Mathlib

set_option maxHeartbeats 1000000
set_option linter.unusedVariables false

/-!
Shallow embedding of the ConfidentialAuction contract
(fhevm-confidential-auction repository, Solidity source `ConfidentialAuction`).

Modelling conventions:
* Addresses are `Nat`; `block.timestamp` is the explicit `time : Nat` argument
  of every entry point; `msg.sender` is the explicit `sender : Nat` argument.
* An encrypted 64-bit value (`euint64`) is modelled by `Ct`: a fresh handle
  (allocated from `ContractState.nextHandle`, mirroring that every FHE
  operation returns a fresh ciphertext handle) together with its plaintext
  value.  `FHE.gt` and `FHE.select` are evaluated on the plaintexts, which is
  exactly the semantics the FHE co-processor provides.
* `FHE.allowThis` / `FHE.allow` append `(handle, principal)` pairs to an
  access-control list; `FHE.makePubliclyDecryptable` inserts the handle into
  the set `publics` of publicly decryptable handles (a per-handle one-way
  flag, so inserting twice is a no-op).
* Each `require(cond, msg)` becomes a guard returning a distinct
  `AuctionError` constructor named after the Solidity revert string; the
  checks appear in exactly the order the modifiers and statements run.
* Solidity 0.8 checked subtraction in `placeBid`'s extension test is modelled
  by `checkedSub`, which reports `arithmeticUnderflow` when the minuend is
  smaller (the code path the implicit-safety claim is about).
* A reverted call leaves the state unchanged (`applyOp`), matching EVM revert
  semantics.
-/

namespace ConfAuction

/-- A principal that can hold FHE access permissions: the auction contract
itself (the target of `FHE.allowThis`) or an externally owned account. -/
inductive Principal where
  | contractAcct : Principal
  | user : Nat → Principal
deriving DecidableEq, Repr

/-- Mirrors the Solidity enum `AuctionType`. -/
inductive AuctionType where
  | ENGLISH : AuctionType
  | DUTCH : AuctionType
  | SEALED_BID : AuctionType
  | RESERVE : AuctionType
deriving DecidableEq, Repr

/-- Mirrors the Solidity enum `AuctionStatus`. -/
inductive AuctionStatus where
  | PENDING : AuctionStatus
  | ACTIVE : AuctionStatus
  | EXTENDED : AuctionStatus
  | ENDED : AuctionStatus
  | CANCELLED : AuctionStatus
deriving DecidableEq, Repr

/-- A ciphertext: an opaque handle plus the plaintext it encrypts. -/
structure Ct where
  handle : Nat
  value : Nat
deriving DecidableEq, Repr

/-- The all-zero ciphertext slot a Solidity mapping yields before any write
(`euint64` default value, handle 0). -/
def nullCt : Ct := ⟨0, 0⟩

/-- One constructor per `require` string in the contract (grouping per the
spec's error taxonomy is recorded in the claim statements, e.g. the spec's
`Unauthorized` covers `onlyAuctioneersErr`, `creatorCannotBid` and
`notAuthorized`). -/
inductive AuctionError where
  | auctionDoesNotExist : AuctionError      -- "Auction does not exist"
  | onlyOwnerErr : AuctionError             -- "Only owner can call this function"
  | onlyAuctioneersErr : AuctionError       -- "Only authorized auctioneers"
  | invalidTimeRange : AuctionError         -- "Invalid time range"
  | endTimeNotFuture : AuctionError         -- "End time must be in future"
  | incrementNotPositive : AuctionError     -- "Minimum bid increment must be positive"
  | auctionNotActiveErr : AuctionError      -- "Auction not active"
  | auctionNotStarted : AuctionError        -- "Auction not started"
  | auctionEndedErr : AuctionError          -- "Auction ended"
  | creatorCannotBid : AuctionError         -- "Creator cannot bid"
  | autoBidOnEnded : AuctionError           -- "Cannot set auto-bid on ended auction"
  | notAuthorized : AuctionError            -- "Not authorized"
  | cannotCancelWithBids : AuctionError     -- "Cannot cancel auction with bids"
  | alreadyEnded : AuctionError             -- "Auction already ended"
  | auctionNotFinished : AuctionError       -- "Auction not finished"
  | feeTooHigh : AuctionError               -- "Fee cannot exceed 10%"
  | arithmeticUnderflow : AuctionError      -- Solidity 0.8 checked-sub panic
deriving DecidableEq, Repr

/-- Mirrors the contract's events. -/
inductive Event where
  | AuctionCreated (auctionId : Nat) (title : String) (creator : Nat)
      (ty : AuctionType) (startTime endTime : Nat) : Event
  | BidPlaced (auctionId bidder timestamp : Nat) : Event
  | AutoBidSet (auctionId bidder : Nat) : Event
  | AuctionExtended (auctionId newEndTime : Nat) : Event
  | AuctionEnded (auctionId winner winningBid : Nat) : Event
  | AuctionCancelled (auctionId : Nat) : Event
deriving DecidableEq, Repr

/-- Mirrors the Solidity struct `Auction`; mappings become functions. -/
structure Auction where
  title : String
  description : String
  itemImageUrl : String
  creator : Nat
  auctionType : AuctionType
  status : AuctionStatus
  startTime : Nat
  endTime : Nat
  extensionTime : Nat
  minimumBidIncrement : Nat
  totalBids : Nat
  hasReservePrice : Bool
  encryptedReservePrice : Ct
  encryptedHighestBid : Ct
  currentHighestBidder : Nat
  encryptedBids : Nat → Ct
  hasBid : Nat → Bool
  encryptedMaxAutoBid : Nat → Ct
  hasAutoBid : Nat → Bool
  bidTimestamps : Nat → Nat
  bidders : List Nat

/-- The value a Solidity `mapping(uint256 => Auction)` yields at an index that
was never written: everything zeroed. -/
instance : Inhabited Auction :=
  ⟨{ title := "", description := "", itemImageUrl := "", creator := 0,
     auctionType := .ENGLISH, status := .PENDING, startTime := 0, endTime := 0,
     extensionTime := 0, minimumBidIncrement := 0, totalBids := 0,
     hasReservePrice := false, encryptedReservePrice := nullCt,
     encryptedHighestBid := nullCt, currentHighestBidder := 0,
     encryptedBids := fun _ => nullCt, hasBid := fun _ => false,
     encryptedMaxAutoBid := fun _ => nullCt, hasAutoBid := fun _ => false,
     bidTimestamps := fun _ => 0, bidders := [] }⟩

/-- Contract-level storage.  `auctions` is a list whose length is
`auctionCounter` (ids are assigned sequentially, so the mapping plus counter
is exactly a list).  `nextHandle`, `acl` and `publics` model the FHE
co-processor's handle allocator, ACL and public-decryption set. -/
structure ContractState where
  auctions : List Auction
  auctioneers : Nat → Bool
  owner : Nat
  platformFeePercent : Nat
  nextHandle : Nat
  acl : List (Nat × Principal)
  publics : List Nat

/-- `auctionCounter` public getter. -/
def ContractState.auctionCounter (s : ContractState) : Nat := s.auctions.length

/-- Constructor: deployer becomes owner and an auctioneer; fee is 2.5%. -/
def initialState (deployer : Nat) : ContractState :=
  { auctions := [],
    auctioneers := fun a => decide (a = deployer),
    owner := deployer,
    platformFeePercent := 250,
    nextHandle := 1,
    acl := [],
    publics := [] }

/-- `auctions[id]` read. -/
def getA (s : ContractState) (id : Nat) : Auction := s.auctions.getD id default

/-- Point update of a map modelled as a function. -/
def updF {α : Type} (f : Nat → α) (k : Nat) (v : α) : Nat → α :=
  fun x => if x = k then v else f x

/-- Marking a handle publicly decryptable: a one-way per-handle flag. -/
def allowPub (h : Nat) (l : List Nat) : List Nat := if h ∈ l then l else h :: l

/-- `EXTENSION_THRESHOLD` constant (5 minutes). -/
def EXTENSION_THRESHOLD : Nat := 300

/-- Solidity 0.8 checked subtraction: reverts (returns `none`) on underflow. -/
def checkedSub (a b : Nat) : Option Nat := if b ≤ a then some (a - b) else none

/-- Result of one external call: revert reason, or new state plus events. -/
abbrev TxResult := Except AuctionError (ContractState × List Event)

/-- `txOk r` iff the call did not revert. -/
def txOk (r : TxResult) : Bool :=
  match r with
  | .ok _ => true
  | .error _ => false

/-- The fresh `Auction` record written by the internal initialization helper
called from `createAuction` (source `_initializeAuction`).  `h0` is the handle
of the encrypted zero `encryptedHighestBid` starts at; the reserve ciphertext,
imported only when `hasReserve`, receives handle `h0 + 1`. -/
def newAuctionRecord (sender : Nat) (ttl desc img : String) (ty : AuctionType)
    (startT endT minInc extT : Nat) (hasReserve : Bool) (reserveVal h0 : Nat) :
    Auction :=
  { title := ttl, description := desc, itemImageUrl := img,
    creator := sender, auctionType := ty, status := .PENDING,
    startTime := startT, endTime := endT, extensionTime := extT,
    minimumBidIncrement := minInc, totalBids := 0,
    hasReservePrice := hasReserve,
    encryptedReservePrice := if hasReserve then ⟨h0 + 1, reserveVal⟩ else nullCt,
    encryptedHighestBid := ⟨h0, 0⟩,
    currentHighestBidder := 0,
    encryptedBids := fun _ => nullCt, hasBid := fun _ => false,
    encryptedMaxAutoBid := fun _ => nullCt, hasAutoBid := fun _ => false,
    bidTimestamps := fun _ => 0, bidders := [] }

/-- `createAuction`: `onlyAuctioneer` modifier, then the three `require`s,
then id allocation `auctionCounter++` and record initialization. -/
def createAuction (s : ContractState) (sender time : Nat)
    (ttl desc img : String) (ty : AuctionType)
    (startT endT minInc extT : Nat) (hasReserve : Bool) (reserveVal : Nat) :
    TxResult :=
  if ¬(s.auctioneers sender = true ∨ sender = s.owner) then
    .error .onlyAuctioneersErr
  else if ¬(startT < endT) then .error .invalidTimeRange
  else if ¬(time < endT) then .error .endTimeNotFuture
  else if ¬(0 < minInc) then .error .incrementNotPositive
  else
    let auctionId := s.auctions.length
    let h0 := s.nextHandle
    let newA := newAuctionRecord sender ttl desc img ty startT endT minInc
      extT hasReserve reserveVal h0
    let acl1 := (h0, Principal.contractAcct) :: (h0, Principal.user sender) :: s.acl
    .ok ({ s with
            auctions := s.auctions ++ [newA],
            nextHandle := if hasReserve then h0 + 2 else h0 + 1,
            acl := if hasReserve then
                (h0 + 1, Principal.contractAcct) :: (h0 + 1, Principal.user sender) :: acl1
              else acl1 },
         [Event.AuctionCreated auctionId ttl sender ty startT endT])

/-- The updated `Auction` record a successful `placeBid` stores.  `extend`
is the already-evaluated extension test, `h1` the handle of the imported bid
ciphertext, `h2` the handle of the `FHE.select` result. -/
def bidResultAuction (a : Auction) (sender time amount : Nat) (extend : Bool)
    (h1 h2 : Nat) : Auction :=
  { a with
    status := if extend then .EXTENDED
              else if a.status = .PENDING then .ACTIVE else a.status,
    endTime := if extend then a.endTime + a.extensionTime else a.endTime,
    encryptedHighestBid :=
      ⟨h2, if a.encryptedHighestBid.value < amount then amount
           else a.encryptedHighestBid.value⟩,
    encryptedBids := updF a.encryptedBids sender ⟨h1, amount⟩,
    bidTimestamps := updF a.bidTimestamps sender time,
    hasBid := if a.hasBid sender then a.hasBid else updF a.hasBid sender true,
    bidders := if a.hasBid sender then a.bidders else a.bidders ++ [sender],
    totalBids := a.totalBids + 1 }

/-- `placeBid`: modifiers `auctionExists`, `auctionActive`, `canBid` in order,
then the oblivious greater-than/select update, bidder bookkeeping, permission
grants, and the extension policy on `endTime - block.timestamp`. -/
def placeBid (s : ContractState) (sender time auctionId amount : Nat) :
    TxResult :=
  if ¬(auctionId < s.auctions.length) then .error .auctionDoesNotExist
  else
    let a := getA s auctionId
    if ¬(a.status = .PENDING ∨ a.status = .ACTIVE ∨ a.status = .EXTENDED) then
      .error .auctionNotActiveErr
    else if ¬(a.startTime ≤ time) then .error .auctionNotStarted
    else if ¬(time ≤ a.endTime) then .error .auctionEndedErr
    else if sender = a.creator then .error .creatorCannotBid
    else
      match checkedSub a.endTime time with
      | none => .error .arithmeticUnderflow
      | some remaining =>
        let extend : Bool :=
          decide (remaining ≤ EXTENSION_THRESHOLD) && decide (0 < a.extensionTime)
        let h1 := s.nextHandle
        let h2 := s.nextHandle + 1
        let a' := bidResultAuction a sender time amount extend h1 h2
        .ok ({ s with
                auctions := s.auctions.set auctionId a',
                nextHandle := s.nextHandle + 2,
                acl := (h2, Principal.contractAcct) :: (h2, Principal.user a.creator) ::
                       (h1, Principal.contractAcct) :: (h1, Principal.user sender) :: s.acl },
             (if extend then [Event.AuctionExtended auctionId (a.endTime + a.extensionTime)]
              else []) ++ [Event.BidPlaced auctionId sender time])

/-- `setAutoBid`: modifiers `auctionExists` and `canBid` (no `auctionActive`),
then the status `require` (`PENDING || ACTIVE` only), then storage of the
imported ceiling and its two permission grants. -/
def setAutoBid (s : ContractState) (sender time auctionId maxAmount : Nat) :
    TxResult :=
  if ¬(auctionId < s.auctions.length) then .error .auctionDoesNotExist
  else
    let a := getA s auctionId
    if sender = a.creator then .error .creatorCannotBid
    else if ¬(a.status = .PENDING ∨ a.status = .ACTIVE) then .error .autoBidOnEnded
    else
      let h := s.nextHandle
      let a' := { a with
        encryptedMaxAutoBid := updF a.encryptedMaxAutoBid sender ⟨h, maxAmount⟩,
        hasAutoBid := updF a.hasAutoBid sender true }
      .ok ({ s with
              auctions := s.auctions.set auctionId a',
              nextHandle := s.nextHandle + 1,
              acl := (h, Principal.contractAcct) :: (h, Principal.user sender) :: s.acl },
           [Event.AutoBidSet auctionId sender])

/-- `endAuction`: exists, creator-or-owner, status `ACTIVE || EXTENDED`. -/
def endAuction (s : ContractState) (sender time auctionId : Nat) : TxResult :=
  if ¬(auctionId < s.auctions.length) then .error .auctionDoesNotExist
  else
    let a := getA s auctionId
    if ¬(sender = a.creator ∨ sender = s.owner) then .error .notAuthorized
    else if ¬(a.status = .ACTIVE ∨ a.status = .EXTENDED) then .error .auctionNotActiveErr
    else
      .ok ({ s with auctions := s.auctions.set auctionId { a with status := .ENDED } },
           [Event.AuctionEnded auctionId a.currentHighestBidder 0])

/-- `cancelAuction`: exists, creator-or-owner, `totalBids == 0`, not ENDED. -/
def cancelAuction (s : ContractState) (sender time auctionId : Nat) : TxResult :=
  if ¬(auctionId < s.auctions.length) then .error .auctionDoesNotExist
  else
    let a := getA s auctionId
    if ¬(sender = a.creator ∨ sender = s.owner) then .error .notAuthorized
    else if ¬(a.totalBids = 0) then .error .cannotCancelWithBids
    else if a.status = .ENDED then .error .alreadyEnded
    else
      .ok ({ s with auctions := s.auctions.set auctionId { a with status := .CANCELLED } },
           [Event.AuctionCancelled auctionId])

/-- `revealResults`: exists, effectively ended (status `ENDED` or
`block.timestamp > endTime`), creator-or-owner (in this order); then marks
the highest bid, and the reserve iff present, publicly decryptable. -/
def revealResults (s : ContractState) (sender time auctionId : Nat) : TxResult :=
  if ¬(auctionId < s.auctions.length) then .error .auctionDoesNotExist
  else
    let a := getA s auctionId
    if ¬(a.status = .ENDED ∨ a.endTime < time) then .error .auctionNotFinished
    else if ¬(sender = a.creator ∨ sender = s.owner) then .error .notAuthorized
    else
      let p1 := allowPub a.encryptedHighestBid.handle s.publics
      .ok ({ s with publics :=
               if a.hasReservePrice then allowPub a.encryptedReservePrice.handle p1
               else p1 },
           [])

/-- `setAuctioneer` (onlyOwner). -/
def setAuctioneer (s : ContractState) (sender auctioneer : Nat) (isAuct : Bool) :
    TxResult :=
  if ¬(sender = s.owner) then .error .onlyOwnerErr
  else .ok ({ s with auctioneers := updF s.auctioneers auctioneer isAuct }, [])

/-- `setPlatformFee` (onlyOwner, fee capped at 10%). -/
def setPlatformFee (s : ContractState) (sender fee : Nat) : TxResult :=
  if ¬(sender = s.owner) then .error .onlyOwnerErr
  else if ¬(fee ≤ 1000) then .error .feeTooHigh
  else .ok ({ s with platformFeePercent := fee }, [])

/-- One external call to the contract, with its transaction context. -/
inductive Op where
  | create (sender time : Nat) (ttl desc img : String) (ty : AuctionType)
      (startT endT minInc extT : Nat) (hasReserve : Bool) (reserveVal : Nat) : Op
  | bid (sender time auctionId amount : Nat) : Op
  | autoBid (sender time auctionId maxAmount : Nat) : Op
  | endAuc (sender time auctionId : Nat) : Op
  | cancel (sender time auctionId : Nat) : Op
  | reveal (sender time auctionId : Nat) : Op
  | setAuct (sender auctioneer : Nat) (isAuct : Bool) : Op
  | setFee (sender fee : Nat) : Op

/-- Dispatch one call. -/
def execOp (s : ContractState) : Op → TxResult
  | .create sender time ttl desc img ty startT endT minInc extT hr rv =>
      createAuction s sender time ttl desc img ty startT endT minInc extT hr rv
  | .bid sender time auctionId amount => placeBid s sender time auctionId amount
  | .autoBid sender time auctionId maxAmount => setAutoBid s sender time auctionId maxAmount
  | .endAuc sender time auctionId => endAuction s sender time auctionId
  | .cancel sender time auctionId => cancelAuction s sender time auctionId
  | .reveal sender time auctionId => revealResults s sender time auctionId
  | .setAuct sender auctioneer isAuct => setAuctioneer s sender auctioneer isAuct
  | .setFee sender fee => setPlatformFee s sender fee

/-- State after one call; a revert leaves the state unchanged. -/
def applyOp (s : ContractState) (op : Op) : ContractState :=
  match execOp s op with
  | .ok (s', _) => s'
  | .error _ => s

/-- State after a sequence of calls. -/
def execOps (s : ContractState) : List Op → ContractState
  | [] => s
  | op :: rest => execOps (applyOp s op) rest

/-- State reached from deployment by a sequence of calls. -/
def run (deployer : Nat) (ops : List Op) : ContractState :=
  execOps (initialState deployer) ops

/-- The amounts of the successful `placeBid` calls on `auctionId` in a call
sequence starting from `s`, in chronological order. -/
def successfulBids (s : ContractState) (ops : List Op) (auctionId : Nat) :
    List Nat :=
  match ops with
  | [] => []
  | op :: rest =>
    let tail := successfulBids (applyOp s op) rest auctionId
    match op with
    | .bid _ _ aid amount =>
        if aid = auctionId ∧ txOk (execOp s op) = true then amount :: tail else tail
    | _ => tail

/-- The senders of the successful `placeBid` calls on `auctionId`, in
chronological order (with repeats). -/
def successfulBidders (s : ContractState) (ops : List Op) (auctionId : Nat) :
    List Nat :=
  match ops with
  | [] => []
  | op :: rest =>
    let tail := successfulBidders (applyOp s op) rest auctionId
    match op with
    | .bid sender _ aid _ =>
        if aid = auctionId ∧ txOk (execOp s op) = true then sender :: tail else tail
    | _ => tail

/-- Maximum of a list of plaintext amounts (0 when empty, matching the
encrypted-zero initial highest bid). -/
def maxOf (l : List Nat) : Nat := l.foldr max 0

/-- Revert reason of a call, if it reverted. -/
def txErr (r : TxResult) : Option AuctionError :=
  match r with
  | .ok _ => none
  | .error e => some e

/-- Spec §4.2 `canManage`: owner or the record's creator (used by
`endAuction`, `cancelAuction`, `revealResults`). -/
def canManage (s : ContractState) (auctionId sender : Nat) : Prop :=
  sender = (getA s auctionId).creator ∨ sender = s.owner

/-- The statuses in which `placeBid`'s `auctionActive` modifier passes. -/
def biddableStatus (st : AuctionStatus) : Prop :=
  st = .PENDING ∨ st = .ACTIVE ∨ st = .EXTENDED

/-- Full precondition of a successful `placeBid`. -/
def placeBidPre (s : ContractState) (sender time auctionId : Nat) : Prop :=
  auctionId < s.auctions.length ∧
  biddableStatus (getA s auctionId).status ∧
  (getA s auctionId).startTime ≤ time ∧
  time ≤ (getA s auctionId).endTime ∧
  sender ≠ (getA s auctionId).creator

instance (st : AuctionStatus) : Decidable (biddableStatus st) := by
  unfold biddableStatus; infer_instance

instance (s : ContractState) (auctionId sender : Nat) :
    Decidable (canManage s auctionId sender) := by
  unfold canManage; infer_instance

instance (s : ContractState) (sender time auctionId : Nat) :
    Decidable (placeBidPre s sender time auctionId) := by
  unfold placeBidPre; infer_instance

/-- The extension test of `placeBid`, evaluated on the pre-call record. -/
def bidExtend (a : Auction) (time : Nat) : Bool :=
  decide (a.endTime - time ≤ EXTENSION_THRESHOLD) && decide (0 < a.extensionTime)

/-- The state a successful `placeBid` produces. -/
def pbState (s : ContractState) (sender time auctionId amount : Nat) :
    ContractState :=
  let a := getA s auctionId
  { s with
    auctions := s.auctions.set auctionId
      (bidResultAuction a sender time amount (bidExtend a time)
        s.nextHandle (s.nextHandle + 1)),
    nextHandle := s.nextHandle + 2,
    acl := (s.nextHandle + 1, Principal.contractAcct) ::
           (s.nextHandle + 1, Principal.user a.creator) ::
           (s.nextHandle, Principal.contractAcct) ::
           (s.nextHandle, Principal.user sender) :: s.acl }

/-- The events a successful `placeBid` emits. -/
def pbEvents (s : ContractState) (sender time auctionId : Nat) : List Event :=
  let a := getA s auctionId
  (if bidExtend a time then
     [Event.AuctionExtended auctionId (a.endTime + a.extensionTime)]
   else []) ++ [Event.BidPlaced auctionId sender time]

section ListHelpers

variable {α : Type} [Inhabited α]

lemma getD_set_self (l : List α) (i : Nat) (a : α) (h : i < l.length) :
    (l.set i a).getD i default = a := by
  simp [List.getD, List.getElem?_set_self, List.getElem?_eq_getElem, h]

lemma getD_set_ne (l : List α) (i j : Nat) (a : α) (h : i ≠ j) :
    (l.set i a).getD j default = l.getD j default := by
  simp [List.getD, List.getElem?_set_ne, h]

lemma getD_append_lt (l l2 : List α) (i : Nat) (h : i < l.length) :
    (l ++ l2).getD i default = l.getD i default := by
  simp [List.getD, List.getElem?_append_left, h]

lemma getD_append_len (l : List α) (x : α) :
    (l ++ [x]).getD l.length default = x := by
  simp [List.getD]

lemma getD_of_le (l : List α) (i : Nat) (h : l.length ≤ i) :
    l.getD i default = default := by
  simp [List.getD, List.getElem?_eq_none, h]

end ListHelpers

/-- Explicit result of a successful `placeBid`. -/
lemma placeBid_eq_of_pre (s : ContractState) (sender time auctionId amount : Nat)
    (h : placeBidPre s sender time auctionId) :
    placeBid s sender time auctionId amount =
      .ok (pbState s sender time auctionId amount, pbEvents s sender time auctionId) := by
  obtain ⟨h1, h2, h3, h4, h5⟩ := h
  unfold biddableStatus at h2
  unfold placeBid checkedSub pbState pbEvents bidExtend
  simp [h1, h2, h3, h4, h5]

/-- A successful `placeBid` is exactly `placeBidPre`. -/
lemma placeBid_ok_iff (s : ContractState) (sender time auctionId amount : Nat) :
    txOk (placeBid s sender time auctionId amount) = true ↔
      placeBidPre s sender time auctionId := by
  constructor
  · intro h
    by_cases h1 : auctionId < s.auctions.length
    case neg => simp [placeBid, h1, txOk] at h
    by_cases h2 : biddableStatus (getA s auctionId).status
    case neg =>
      unfold biddableStatus at h2
      simp [placeBid, h1, h2, txOk] at h
    by_cases h3 : (getA s auctionId).startTime ≤ time
    case neg =>
      unfold biddableStatus at h2
      simp [placeBid, h1, h2, h3, txOk] at h
    by_cases h4 : time ≤ (getA s auctionId).endTime
    case neg =>
      unfold biddableStatus at h2
      simp [placeBid, h1, h2, h3, h4, txOk] at h
    by_cases h5 : sender = (getA s auctionId).creator
    case pos =>
      unfold biddableStatus at h2
      simp [placeBid, h1, h2, h3, h4, h5, txOk] at h
    exact ⟨h1, h2, h3, h4, h5⟩
  · intro h
    rw [placeBid_eq_of_pre s sender time auctionId amount h]
    rfl

/-- Full precondition of a successful `createAuction`. -/
def createPre (s : ContractState) (sender time startT endT minInc : Nat) : Prop :=
  (s.auctioneers sender = true ∨ sender = s.owner) ∧
  startT < endT ∧ time < endT ∧ 0 < minInc

instance (s : ContractState) (sender time startT endT minInc : Nat) :
    Decidable (createPre s sender time startT endT minInc) := by
  unfold createPre; infer_instance

/-- The state a successful `createAuction` produces. -/
def caState (s : ContractState) (sender : Nat) (ttl desc img : String)
    (ty : AuctionType) (startT endT minInc extT : Nat) (hasReserve : Bool)
    (reserveVal : Nat) : ContractState :=
  let h0 := s.nextHandle
  { s with
    auctions := s.auctions ++
      [newAuctionRecord sender ttl desc img ty startT endT minInc extT
        hasReserve reserveVal h0],
    nextHandle := if hasReserve then h0 + 2 else h0 + 1,
    acl := if hasReserve then
        (h0 + 1, Principal.contractAcct) :: (h0 + 1, Principal.user sender) ::
        (h0, Principal.contractAcct) :: (h0, Principal.user sender) :: s.acl
      else
        (h0, Principal.contractAcct) :: (h0, Principal.user sender) :: s.acl }

/-- Explicit result of a successful `createAuction`. -/
lemma createAuction_eq_of_pre (s : ContractState) (sender time : Nat)
    (ttl desc img : String) (ty : AuctionType)
    (startT endT minInc extT : Nat) (hasReserve : Bool) (reserveVal : Nat)
    (h : createPre s sender time startT endT minInc) :
    createAuction s sender time ttl desc img ty startT endT minInc extT
        hasReserve reserveVal =
      .ok (caState s sender ttl desc img ty startT endT minInc extT hasReserve reserveVal,
           [Event.AuctionCreated s.auctions.length ttl sender ty startT endT]) := by
  obtain ⟨h1, h2, h3, h4⟩ := h
  unfold createAuction caState
  simp [h1, h2, h3, h4]

/-- A successful `createAuction` is exactly `createPre`. -/
lemma createAuction_ok_iff (s : ContractState) (sender time : Nat)
    (ttl desc img : String) (ty : AuctionType)
    (startT endT minInc extT : Nat) (hasReserve : Bool) (reserveVal : Nat) :
    txOk (createAuction s sender time ttl desc img ty startT endT minInc extT
        hasReserve reserveVal) = true ↔
      createPre s sender time startT endT minInc := by
  constructor
  · intro h
    by_cases h1 : s.auctioneers sender = true ∨ sender = s.owner
    case neg => simp [createAuction, h1, txOk] at h
    by_cases h2 : startT < endT
    case neg => simp [createAuction, h1, h2, txOk] at h
    by_cases h3 : time < endT
    case neg => simp [createAuction, h1, h2, h3, txOk] at h
    by_cases h4 : 0 < minInc
    case neg => simp [createAuction, h1, h2, h3, h4, txOk] at h
    exact ⟨h1, h2, h3, h4⟩
  · intro h
    rw [createAuction_eq_of_pre s sender time ttl desc img ty startT endT minInc
      extT hasReserve reserveVal h]
    rfl

/-- Role violation in `createAuction` reverts with the auctioneer error
(the spec's `Unauthorized`). -/
lemma createAuction_err_role (s : ContractState) (sender time : Nat)
    (ttl desc img : String) (ty : AuctionType)
    (startT endT minInc extT : Nat) (hasReserve : Bool) (reserveVal : Nat)
    (h : ¬(s.auctioneers sender = true ∨ sender = s.owner)) :
    createAuction s sender time ttl desc img ty startT endT minInc extT
        hasReserve reserveVal = .error .onlyAuctioneersErr := by
  simp [createAuction, h]

/-- Ordering violation in `createAuction` reverts with the time-range error
(the spec's `InvalidTimeWindow`). -/
lemma createAuction_err_range (s : ContractState) (sender time : Nat)
    (ttl desc img : String) (ty : AuctionType)
    (startT endT minInc extT : Nat) (hasReserve : Bool) (reserveVal : Nat)
    (h1 : s.auctioneers sender = true ∨ sender = s.owner)
    (h2 : ¬startT < endT) :
    createAuction s sender time ttl desc img ty startT endT minInc extT
        hasReserve reserveVal = .error .invalidTimeRange := by
  simp [createAuction, h1, h2]

/-- Past-dated end in `createAuction` reverts with the end-time error
(the spec's `InvalidTimeWindow`). -/
lemma createAuction_err_future (s : ContractState) (sender time : Nat)
    (ttl desc img : String) (ty : AuctionType)
    (startT endT minInc extT : Nat) (hasReserve : Bool) (reserveVal : Nat)
    (h1 : s.auctioneers sender = true ∨ sender = s.owner)
    (h2 : startT < endT) (h3 : ¬time < endT) :
    createAuction s sender time ttl desc img ty startT endT minInc extT
        hasReserve reserveVal = .error .endTimeNotFuture := by
  simp [createAuction, h1, h2, h3]

/-- Full precondition of a successful `setAutoBid` (note: no time-window
check, and EXTENDED is not accepted). -/
def setAutoBidPre (s : ContractState) (sender auctionId : Nat) : Prop :=
  auctionId < s.auctions.length ∧
  sender ≠ (getA s auctionId).creator ∧
  ((getA s auctionId).status = .PENDING ∨ (getA s auctionId).status = .ACTIVE)

instance (s : ContractState) (sender auctionId : Nat) :
    Decidable (setAutoBidPre s sender auctionId) := by
  unfold setAutoBidPre; infer_instance

/-- The state a successful `setAutoBid` produces. -/
def abState (s : ContractState) (sender auctionId maxAmount : Nat) :
    ContractState :=
  let a := getA s auctionId
  { s with
    auctions := s.auctions.set auctionId
      { a with
        encryptedMaxAutoBid := updF a.encryptedMaxAutoBid sender ⟨s.nextHandle, maxAmount⟩,
        hasAutoBid := updF a.hasAutoBid sender true },
    nextHandle := s.nextHandle + 1,
    acl := (s.nextHandle, Principal.contractAcct) ::
           (s.nextHandle, Principal.user sender) :: s.acl }

/-- Explicit result of a successful `setAutoBid`. -/
lemma setAutoBid_eq_of_pre (s : ContractState) (sender time auctionId maxAmount : Nat)
    (h : setAutoBidPre s sender auctionId) :
    setAutoBid s sender time auctionId maxAmount =
      .ok (abState s sender auctionId maxAmount, [Event.AutoBidSet auctionId sender]) := by
  obtain ⟨h1, h2, h3⟩ := h
  unfold setAutoBid abState
  simp [h1, h2, h3]

/-- A successful `setAutoBid` is exactly `setAutoBidPre`. -/
lemma setAutoBid_ok_iff (s : ContractState) (sender time auctionId maxAmount : Nat) :
    txOk (setAutoBid s sender time auctionId maxAmount) = true ↔
      setAutoBidPre s sender auctionId := by
  constructor
  · intro h
    by_cases h1 : auctionId < s.auctions.length
    case neg => simp [setAutoBid, h1, txOk] at h
    by_cases h2 : sender = (getA s auctionId).creator
    case pos => simp [setAutoBid, h1, h2, txOk] at h
    by_cases h3 : (getA s auctionId).status = .PENDING ∨ (getA s auctionId).status = .ACTIVE
    case neg => simp [setAutoBid, h1, h2, h3, txOk] at h
    exact ⟨h1, h2, h3⟩
  · intro h
    rw [setAutoBid_eq_of_pre s sender time auctionId maxAmount h]
    rfl

/-- Full precondition of a successful `endAuction`. -/
def endAuctionPre (s : ContractState) (sender auctionId : Nat) : Prop :=
  auctionId < s.auctions.length ∧
  canManage s auctionId sender ∧
  ((getA s auctionId).status = .ACTIVE ∨ (getA s auctionId).status = .EXTENDED)

instance (s : ContractState) (sender auctionId : Nat) :
    Decidable (endAuctionPre s sender auctionId) := by
  unfold endAuctionPre; infer_instance

/-- The state a successful `endAuction` produces. -/
def endState (s : ContractState) (auctionId : Nat) : ContractState :=
  let a := getA s auctionId
  let a' := { a with status := AuctionStatus.ENDED }
  { s with auctions := s.auctions.set auctionId a' }

/-- Explicit result of a successful `endAuction`. -/
lemma endAuction_eq_of_pre (s : ContractState) (sender time auctionId : Nat)
    (h : endAuctionPre s sender auctionId) :
    endAuction s sender time auctionId =
      .ok (endState s auctionId,
           [Event.AuctionEnded auctionId (getA s auctionId).currentHighestBidder 0]) := by
  obtain ⟨h1, h2, h3⟩ := h
  unfold canManage at h2
  unfold endAuction endState
  simp [h1, h2, h3]

/-- A successful `endAuction` is exactly `endAuctionPre`. -/
lemma endAuction_ok_iff (s : ContractState) (sender time auctionId : Nat) :
    txOk (endAuction s sender time auctionId) = true ↔
      endAuctionPre s sender auctionId := by
  constructor
  · intro h
    by_cases h1 : auctionId < s.auctions.length
    case neg => simp [endAuction, h1, txOk] at h
    by_cases h2 : sender = (getA s auctionId).creator ∨ sender = s.owner
    case neg => simp [endAuction, h1, h2, txOk] at h
    by_cases h3 : (getA s auctionId).status = .ACTIVE ∨ (getA s auctionId).status = .EXTENDED
    case neg => simp [endAuction, h1, h2, h3, txOk] at h
    exact ⟨h1, h2, h3⟩
  · intro h
    rw [endAuction_eq_of_pre s sender time auctionId h]
    rfl

/-- Full precondition of a successful `cancelAuction`. -/
def cancelPre (s : ContractState) (sender auctionId : Nat) : Prop :=
  auctionId < s.auctions.length ∧
  canManage s auctionId sender ∧
  (getA s auctionId).totalBids = 0 ∧
  (getA s auctionId).status ≠ .ENDED

instance (s : ContractState) (sender auctionId : Nat) :
    Decidable (cancelPre s sender auctionId) := by
  unfold cancelPre; infer_instance

/-- The state a successful `cancelAuction` produces. -/
def cancelState (s : ContractState) (auctionId : Nat) : ContractState :=
  let a := getA s auctionId
  let a' := { a with status := AuctionStatus.CANCELLED }
  { s with auctions := s.auctions.set auctionId a' }

/-- Explicit result of a successful `cancelAuction`. -/
lemma cancelAuction_eq_of_pre (s : ContractState) (sender time auctionId : Nat)
    (h : cancelPre s sender auctionId) :
    cancelAuction s sender time auctionId =
      .ok (cancelState s auctionId, [Event.AuctionCancelled auctionId]) := by
  obtain ⟨h1, h2, h3, h4⟩ := h
  unfold canManage at h2
  unfold cancelAuction cancelState
  simp [h1, h2, h3, h4]

/-- A successful `cancelAuction` is exactly `cancelPre`. -/
lemma cancelAuction_ok_iff (s : ContractState) (sender time auctionId : Nat) :
    txOk (cancelAuction s sender time auctionId) = true ↔
      cancelPre s sender auctionId := by
  constructor
  · intro h
    by_cases h1 : auctionId < s.auctions.length
    case neg => simp [cancelAuction, h1, txOk] at h
    by_cases h2 : sender = (getA s auctionId).creator ∨ sender = s.owner
    case neg => simp [cancelAuction, h1, h2, txOk] at h
    by_cases h3 : (getA s auctionId).totalBids = 0
    case neg => simp [cancelAuction, h1, h2, h3, txOk] at h
    by_cases h4 : (getA s auctionId).status = .ENDED
    case pos => simp [cancelAuction, h1, h2, h3, h4, txOk] at h
    exact ⟨h1, h2, h3, h4⟩
  · intro h
    rw [cancelAuction_eq_of_pre s sender time auctionId h]
    rfl

/-- An authorized `cancelAuction` on an auction holding bids reverts with
`cannotCancelWithBids`. -/
lemma cancelAuction_err_bids (s : ContractState) (sender time auctionId : Nat)
    (h1 : auctionId < s.auctions.length)
    (h2 : sender = (getA s auctionId).creator ∨ sender = s.owner)
    (h3 : (getA s auctionId).totalBids ≠ 0) :
    cancelAuction s sender time auctionId = .error .cannotCancelWithBids := by
  simp [cancelAuction, h1, h2, h3]

/-- An unauthorized `cancelAuction` on an existing auction reverts with
`notAuthorized` (the spec's `Unauthorized`), before the bid check runs. -/
lemma cancelAuction_err_auth (s : ContractState) (sender time auctionId : Nat)
    (h1 : auctionId < s.auctions.length)
    (h2 : ¬(sender = (getA s auctionId).creator ∨ sender = s.owner)) :
    cancelAuction s sender time auctionId = .error .notAuthorized := by
  simp [cancelAuction, h1, h2]

/-- Full precondition of a successful `revealResults`. -/
def revealPre (s : ContractState) (sender time auctionId : Nat) : Prop :=
  auctionId < s.auctions.length ∧
  ((getA s auctionId).status = .ENDED ∨ (getA s auctionId).endTime < time) ∧
  canManage s auctionId sender

instance (s : ContractState) (sender time auctionId : Nat) :
    Decidable (revealPre s sender time auctionId) := by
  unfold revealPre; infer_instance

/-- The state a successful `revealResults` produces. -/
def revState (s : ContractState) (auctionId : Nat) : ContractState :=
  let a := getA s auctionId
  let p1 := allowPub a.encryptedHighestBid.handle s.publics
  let p2 := if a.hasReservePrice then allowPub a.encryptedReservePrice.handle p1 else p1
  { s with publics := p2 }

/-- Explicit result of a successful `revealResults`. -/
lemma revealResults_eq_of_pre (s : ContractState) (sender time auctionId : Nat)
    (h : revealPre s sender time auctionId) :
    revealResults s sender time auctionId = .ok (revState s auctionId, []) := by
  obtain ⟨h1, h2, h3⟩ := h
  unfold canManage at h3
  unfold revealResults revState
  simp [h1, h2, h3]

/-- A successful `revealResults` is exactly `revealPre`. -/
lemma revealResults_ok_iff (s : ContractState) (sender time auctionId : Nat) :
    txOk (revealResults s sender time auctionId) = true ↔
      revealPre s sender time auctionId := by
  constructor
  · intro h
    by_cases h1 : auctionId < s.auctions.length
    case neg => simp [revealResults, h1, txOk] at h
    by_cases h2 : (getA s auctionId).status = .ENDED ∨ (getA s auctionId).endTime < time
    case neg => simp [revealResults, h1, h2, txOk] at h
    by_cases h3 : sender = (getA s auctionId).creator ∨ sender = s.owner
    case neg => simp [revealResults, h1, h2, h3, txOk] at h
    exact ⟨h1, h2, h3⟩
  · intro h
    rw [revealResults_eq_of_pre s sender time auctionId h]
    rfl

/-- The state a successful `setAuctioneer` produces. -/
def auctState (s : ContractState) (auctioneer : Nat) (isAuct : Bool) :
    ContractState :=
  { s with auctioneers := updF s.auctioneers auctioneer isAuct }

/-- Explicit result of a successful `setAuctioneer`. -/
lemma setAuctioneer_eq_of_pre (s : ContractState) (sender auctioneer : Nat)
    (isAuct : Bool) (h : sender = s.owner) :
    setAuctioneer s sender auctioneer isAuct = .ok (auctState s auctioneer isAuct, []) := by
  simp [setAuctioneer, auctState, h]

/-- The state a successful `setPlatformFee` produces. -/
def feeState (s : ContractState) (fee : Nat) : ContractState :=
  { s with platformFeePercent := fee }

/-- Explicit result of a successful `setPlatformFee`. -/
lemma setPlatformFee_eq_of_pre (s : ContractState) (sender fee : Nat)
    (h1 : sender = s.owner) (h2 : fee ≤ 1000) :
    setPlatformFee s sender fee = .ok (feeState s fee, []) := by
  simp [setPlatformFee, feeState, h1, h2]

/-- A reverted call leaves the state unchanged. -/
lemma applyOp_not_ok (s : ContractState) (op : Op)
    (h : txOk (execOp s op) = false) : applyOp s op = s := by
  unfold applyOp
  unfold txOk at h
  cases hr : execOp s op with
  | ok r => rw [hr] at h; simp at h
  | error e => rfl

/-- A successful call moves the state to the returned one. -/
lemma applyOp_of_exec (s s' : ContractState) (op : Op) (evs : List Event)
    (h : execOp s op = .ok (s', evs)) : applyOp s op = s' := by
  unfold applyOp
  rw [h]

lemma txOk_false_of_not {r : TxResult} (h : ¬txOk r = true) : txOk r = false := by
  cases hr : txOk r
  · rfl
  · exact absurd hr h

/-- Every call either reverts (leaving the state unchanged) or is one of the
eight successful transitions, characterized by its precondition and its
explicit post-state. -/
lemma applyOp_cases (s : ContractState) (op : Op) :
    (txOk (execOp s op) = false ∧ applyOp s op = s) ∨
    (∃ sender time ttl desc img ty startT endT minInc extT hr rv,
       op = Op.create sender time ttl desc img ty startT endT minInc extT hr rv ∧
       createPre s sender time startT endT minInc ∧
       applyOp s op = caState s sender ttl desc img ty startT endT minInc extT hr rv) ∨
    (∃ sender time auctionId amount,
       op = Op.bid sender time auctionId amount ∧
       placeBidPre s sender time auctionId ∧
       applyOp s op = pbState s sender time auctionId amount) ∨
    (∃ sender time auctionId maxAmount,
       op = Op.autoBid sender time auctionId maxAmount ∧
       setAutoBidPre s sender auctionId ∧
       applyOp s op = abState s sender auctionId maxAmount) ∨
    (∃ sender time auctionId,
       op = Op.endAuc sender time auctionId ∧
       endAuctionPre s sender auctionId ∧
       applyOp s op = endState s auctionId) ∨
    (∃ sender time auctionId,
       op = Op.cancel sender time auctionId ∧
       cancelPre s sender auctionId ∧
       applyOp s op = cancelState s auctionId) ∨
    (∃ sender time auctionId,
       op = Op.reveal sender time auctionId ∧
       revealPre s sender time auctionId ∧
       applyOp s op = revState s auctionId) ∨
    (∃ sender auctioneer isAuct,
       op = Op.setAuct sender auctioneer isAuct ∧
       applyOp s op = auctState s auctioneer isAuct) ∨
    (∃ sender fee,
       op = Op.setFee sender fee ∧
       applyOp s op = feeState s fee) := by
  cases op with
  | create sender time ttl desc img ty startT endT minInc extT hr rv =>
    by_cases h : createPre s sender time startT endT minInc
    · exact Or.inr (Or.inl ⟨sender, time, ttl, desc, img, ty, startT, endT, minInc,
        extT, hr, rv, rfl, h,
        applyOp_of_exec _ _ _ _ (createAuction_eq_of_pre s sender time ttl desc img
          ty startT endT minInc extT hr rv h)⟩)
    · have hf : txOk (execOp s (Op.create sender time ttl desc img ty startT endT
          minInc extT hr rv)) = false :=
        txOk_false_of_not (fun hok => h ((createAuction_ok_iff s sender time ttl
          desc img ty startT endT minInc extT hr rv).1 hok))
      exact Or.inl ⟨hf, applyOp_not_ok _ _ hf⟩
  | bid sender time auctionId amount =>
    by_cases h : placeBidPre s sender time auctionId
    · exact Or.inr (Or.inr (Or.inl ⟨sender, time, auctionId, amount, rfl, h,
        applyOp_of_exec _ _ _ _ (placeBid_eq_of_pre s sender time auctionId amount h)⟩))
    · have hf : txOk (execOp s (Op.bid sender time auctionId amount)) = false :=
        txOk_false_of_not (fun hok => h ((placeBid_ok_iff s sender time auctionId amount).1 hok))
      exact Or.inl ⟨hf, applyOp_not_ok _ _ hf⟩
  | autoBid sender time auctionId maxAmount =>
    by_cases h : setAutoBidPre s sender auctionId
    · exact Or.inr (Or.inr (Or.inr (Or.inl ⟨sender, time, auctionId, maxAmount, rfl, h,
        applyOp_of_exec _ _ _ _ (setAutoBid_eq_of_pre s sender time auctionId maxAmount h)⟩)))
    · have hf : txOk (execOp s (Op.autoBid sender time auctionId maxAmount)) = false :=
        txOk_false_of_not (fun hok => h ((setAutoBid_ok_iff s sender time auctionId maxAmount).1 hok))
      exact Or.inl ⟨hf, applyOp_not_ok _ _ hf⟩
  | endAuc sender time auctionId =>
    by_cases h : endAuctionPre s sender auctionId
    · exact Or.inr (Or.inr (Or.inr (Or.inr (Or.inl ⟨sender, time, auctionId, rfl, h,
        applyOp_of_exec _ _ _ _ (endAuction_eq_of_pre s sender time auctionId h)⟩))))
    · have hf : txOk (execOp s (Op.endAuc sender time auctionId)) = false :=
        txOk_false_of_not (fun hok => h ((endAuction_ok_iff s sender time auctionId).1 hok))
      exact Or.inl ⟨hf, applyOp_not_ok _ _ hf⟩
  | cancel sender time auctionId =>
    by_cases h : cancelPre s sender auctionId
    · exact Or.inr (Or.inr (Or.inr (Or.inr (Or.inr (Or.inl ⟨sender, time, auctionId,
        rfl, h,
        applyOp_of_exec _ _ _ _ (cancelAuction_eq_of_pre s sender time auctionId h)⟩)))))
    · have hf : txOk (execOp s (Op.cancel sender time auctionId)) = false :=
        txOk_false_of_not (fun hok => h ((cancelAuction_ok_iff s sender time auctionId).1 hok))
      exact Or.inl ⟨hf, applyOp_not_ok _ _ hf⟩
  | reveal sender time auctionId =>
    by_cases h : revealPre s sender time auctionId
    · exact Or.inr (Or.inr (Or.inr (Or.inr (Or.inr (Or.inr (Or.inl ⟨sender, time,
        auctionId, rfl, h,
        applyOp_of_exec _ _ _ _ (revealResults_eq_of_pre s sender time auctionId h)⟩))))))
    · have hf : txOk (execOp s (Op.reveal sender time auctionId)) = false :=
        txOk_false_of_not (fun hok => h ((revealResults_ok_iff s sender time auctionId).1 hok))
      exact Or.inl ⟨hf, applyOp_not_ok _ _ hf⟩
  | setAuct sender auctioneer isAuct =>
    by_cases h : sender = s.owner
    · exact Or.inr (Or.inr (Or.inr (Or.inr (Or.inr (Or.inr (Or.inr (Or.inl
        ⟨sender, auctioneer, isAuct, rfl,
         applyOp_of_exec _ _ _ _ (setAuctioneer_eq_of_pre s sender auctioneer isAuct h)⟩)))))))
    · have hf : txOk (execOp s (Op.setAuct sender auctioneer isAuct)) = false := by
        show txOk (setAuctioneer s sender auctioneer isAuct) = false
        simp [setAuctioneer, h, txOk]
      exact Or.inl ⟨hf, applyOp_not_ok _ _ hf⟩
  | setFee sender fee =>
    by_cases h1 : sender = s.owner
    · by_cases h2 : fee ≤ 1000
      · exact Or.inr (Or.inr (Or.inr (Or.inr (Or.inr (Or.inr (Or.inr (Or.inr
          ⟨sender, fee, rfl,
           applyOp_of_exec _ _ _ _ (setPlatformFee_eq_of_pre s sender fee h1 h2)⟩)))))))
      · have hf : txOk (execOp s (Op.setFee sender fee)) = false := by
          show txOk (setPlatformFee s sender fee) = false
          simp [setPlatformFee, h1, h2, txOk]
        exact Or.inl ⟨hf, applyOp_not_ok _ _ hf⟩
    · have hf : txOk (execOp s (Op.setFee sender fee)) = false := by
        show txOk (setPlatformFee s sender fee) = false
        simp [setPlatformFee, h1, txOk]
      exact Or.inl ⟨hf, applyOp_not_ok _ _ hf⟩

/-- Reading past the end of the registry yields the zeroed record. -/
lemma getA_of_le (s : ContractState) (id : Nat) (h : s.auctions.length ≤ id) :
    getA s id = default := by
  unfold getA
  exact getD_of_le _ _ h

/-- Reading the registry after a point update. -/
lemma getA_set_cases (s s' : ContractState) (targetId : Nat) (a' : Auction)
    (hs : s'.auctions = s.auctions.set targetId a')
    (htarget : targetId < s.auctions.length) (id : Nat) :
    getA s' id = if targetId = id then a' else getA s id := by
  unfold getA
  rw [hs]
  split_ifs with h
  · subst h
    exact getD_set_self _ _ _ htarget
  · exact getD_set_ne _ _ _ _ h

/-- Reading the registry after an append. -/
lemma getA_caState_cases (s : ContractState) (sender : Nat) (ttl desc img : String)
    (ty : AuctionType) (startT endT minInc extT : Nat) (hasReserve : Bool)
    (reserveVal : Nat) (id : Nat) :
    getA (caState s sender ttl desc img ty startT endT minInc extT hasReserve reserveVal) id =
      if id < s.auctions.length then getA s id
      else if id = s.auctions.length then
        newAuctionRecord sender ttl desc img ty startT endT minInc extT hasReserve
          reserveVal s.nextHandle
      else default := by
  have hauct : (caState s sender ttl desc img ty startT endT minInc extT hasReserve
      reserveVal).auctions =
      s.auctions ++ [newAuctionRecord sender ttl desc img ty startT endT minInc extT
        hasReserve reserveVal s.nextHandle] := rfl
  unfold getA
  rw [hauct]
  split_ifs with h1 h2
  · exact getD_append_lt _ _ _ h1
  · subst h2
    exact getD_append_len _ _
  · refine getD_of_le _ _ ?_
    simp only [List.length_append, List.length_cons, List.length_nil]
    omega

lemma caState_length (s : ContractState) (sender : Nat) (ttl desc img : String)
    (ty : AuctionType) (startT endT minInc extT : Nat) (hasReserve : Bool)
    (reserveVal : Nat) :
    (caState s sender ttl desc img ty startT endT minInc extT hasReserve
      reserveVal).auctions.length = s.auctions.length + 1 := by
  simp [caState]

lemma pbState_length (s : ContractState) (sender time auctionId amount : Nat) :
    (pbState s sender time auctionId amount).auctions.length = s.auctions.length := by
  simp [pbState]

lemma abState_length (s : ContractState) (sender auctionId maxAmount : Nat) :
    (abState s sender auctionId maxAmount).auctions.length = s.auctions.length := by
  simp [abState]

lemma endState_length (s : ContractState) (auctionId : Nat) :
    (endState s auctionId).auctions.length = s.auctions.length := by
  simp [endState]

lemma cancelState_length (s : ContractState) (auctionId : Nat) :
    (cancelState s auctionId).auctions.length = s.auctions.length := by
  simp [cancelState]

lemma revState_auctions (s : ContractState) (auctionId : Nat) :
    (revState s auctionId).auctions = s.auctions := rfl

lemma auctState_auctions (s : ContractState) (auctioneer : Nat) (isAuct : Bool) :
    (auctState s auctioneer isAuct).auctions = s.auctions := rfl

lemma feeState_auctions (s : ContractState) (fee : Nat) :
    (feeState s fee).auctions = s.auctions := rfl

lemma caState_publics (s : ContractState) (sender : Nat) (ttl desc img : String)
    (ty : AuctionType) (startT endT minInc extT : Nat) (hasReserve : Bool)
    (reserveVal : Nat) :
    (caState s sender ttl desc img ty startT endT minInc extT hasReserve
      reserveVal).publics = s.publics := rfl

lemma pbState_publics (s : ContractState) (sender time auctionId amount : Nat) :
    (pbState s sender time auctionId amount).publics = s.publics := rfl

lemma abState_publics (s : ContractState) (sender auctionId maxAmount : Nat) :
    (abState s sender auctionId maxAmount).publics = s.publics := rfl

lemma endState_publics (s : ContractState) (auctionId : Nat) :
    (endState s auctionId).publics = s.publics := rfl

lemma cancelState_publics (s : ContractState) (auctionId : Nat) :
    (cancelState s auctionId).publics = s.publics := rfl

lemma auctState_publics (s : ContractState) (auctioneer : Nat) (isAuct : Bool) :
    (auctState s auctioneer isAuct).publics = s.publics := rfl

lemma feeState_publics (s : ContractState) (fee : Nat) :
    (feeState s fee).publics = s.publics := rfl

lemma allowPub_subset (h : Nat) (l : List Nat) : l ⊆ allowPub h l := by
  unfold allowPub
  split_ifs
  · exact fun x hx => hx
  · exact fun x hx => List.mem_cons_of_mem _ hx

lemma mem_allowPub_self (h : Nat) (l : List Nat) : h ∈ allowPub h l := by
  unfold allowPub
  split_ifs with hm
  · exact hm
  · exact List.mem_cons_self _ _

lemma allowPub_eq_of_mem (h : Nat) (l : List Nat) (hm : h ∈ l) :
    allowPub h l = l := by
  unfold allowPub
  exact if_pos hm

/-- Trace induction: a state predicate preserved by every call holds after
every call sequence. -/
lemma execOps_preserve (P : ContractState → Prop)
    (step : ∀ s op, P s → P (applyOp s op)) :
    ∀ ops s, P s → P (execOps s ops) := by
  intro ops
  induction ops with
  | nil => intro s h; exact h
  | cons op rest ih =>
    intro s h
    exact ih _ (step _ _ h)

/-- Trace induction for a quantity no call ever decreases. -/
lemma execOps_mono (f : ContractState → Nat)
    (step : ∀ s op, f s ≤ f (applyOp s op)) :
    ∀ ops s, f s ≤ f (execOps s ops) := by
  intro ops
  induction ops with
  | nil => intro s; exact Nat.le_refl _
  | cons op rest ih =>
    intro s
    exact Nat.le_trans (step s op) (ih _)

/-- Trace induction for a set no call ever shrinks. -/
lemma execOps_subset (g : ContractState → List Nat)
    (step : ∀ s op, g s ⊆ g (applyOp s op)) :
    ∀ ops s, g s ⊆ g (execOps s ops) := by
  intro ops
  induction ops with
  | nil => intro s; exact fun x hx => hx
  | cons op rest ih =>
    intro s
    exact fun x hx => ih _ (step s op hx)

/-- Plaintext value of an auction's running maximum. -/
def hiVal (s : ContractState) (auctionId : Nat) : Nat :=
  (getA s auctionId).encryptedHighestBid.value

lemma foldr_max_pull (l : List Nat) (a b : Nat) :
    l.foldr max (max a b) = max a (l.foldr max b) := by
  induction l with
  | nil => rfl
  | cons c t ih =>
    simp only [List.foldr_cons, ih]
    exact (Nat.max_left_comm c a (t.foldr max b))

lemma getA_eq_of_auctions (s s' : ContractState) (h : s'.auctions = s.auctions)
    (id : Nat) : getA s' id = getA s id := by
  unfold getA
  rw [h]

lemma hiVal_caState_eq (s : ContractState) (sender : Nat) (ttl desc img : String)
    (ty : AuctionType) (startT endT minInc extT : Nat) (hasReserve : Bool)
    (reserveVal : Nat) (id : Nat) :
    hiVal (caState s sender ttl desc img ty startT endT minInc extT hasReserve
      reserveVal) id = hiVal s id := by
  unfold hiVal
  rw [getA_caState_cases]
  split_ifs with h1 h2
  · rfl
  · subst h2
    rw [getA_of_le s _ (Nat.le_refl _)]
    rfl
  · rw [getA_of_le s id (by omega)]

lemma hiVal_pbState_self (s : ContractState) (sender time auctionId amount : Nat)
    (h : auctionId < s.auctions.length) :
    hiVal (pbState s sender time auctionId amount) auctionId =
      max (hiVal s auctionId) amount := by
  unfold hiVal
  rw [getA_set_cases s _ auctionId _ rfl h auctionId, if_pos rfl]
  show (bidResultAuction (getA s auctionId) sender time amount _ _ _).encryptedHighestBid.value = _
  by_cases hc : (getA s auctionId).encryptedHighestBid.value < amount
  · simp [bidResultAuction, hc, Nat.max_eq_right (Nat.le_of_lt hc)]
  · simp [bidResultAuction, hc, Nat.max_eq_left (Nat.le_of_not_lt hc)]

lemma hiVal_pbState_ne (s : ContractState) (sender time auctionId amount id : Nat)
    (h : auctionId < s.auctions.length) (hne : auctionId ≠ id) :
    hiVal (pbState s sender time auctionId amount) id = hiVal s id := by
  unfold hiVal
  rw [getA_set_cases s _ auctionId _ rfl h id, if_neg hne]

lemma hiVal_abState_eq (s : ContractState) (sender auctionId maxAmount id : Nat)
    (h : auctionId < s.auctions.length) :
    hiVal (abState s sender auctionId maxAmount) id = hiVal s id := by
  unfold hiVal
  rw [getA_set_cases s _ auctionId _ rfl h id]
  split_ifs with he
  · subst he
    rfl
  · rfl

lemma hiVal_endState_eq (s : ContractState) (auctionId id : Nat)
    (h : auctionId < s.auctions.length) :
    hiVal (endState s auctionId) id = hiVal s id := by
  unfold hiVal
  rw [getA_set_cases s _ auctionId _ rfl h id]
  split_ifs with he
  · subst he
    rfl
  · rfl

lemma hiVal_cancelState_eq (s : ContractState) (auctionId id : Nat)
    (h : auctionId < s.auctions.length) :
    hiVal (cancelState s auctionId) id = hiVal s id := by
  unfold hiVal
  rw [getA_set_cases s _ auctionId _ rfl h id]
  split_ifs with he
  · subst he
    rfl
  · rfl

/-- Core of C1: along any call sequence, the running maximum of an auction
folds `max` over exactly the successful bid amounts. -/
lemma hiVal_execOps (ops : List Op) : ∀ s aucId,
    hiVal (execOps s ops) aucId =
      (successfulBids s ops aucId).foldr max (hiVal s aucId) := by
  induction ops with
  | nil => intro s aucId; rfl
  | cons op rest ih =>
    intro s aucId
    show hiVal (execOps (applyOp s op) rest) aucId = _
    rw [ih]
    rcases applyOp_cases s op with ⟨hfail, hsame⟩ |
      ⟨sender, time, ttl, desc, img, ty, startT, endT, minInc, extT, hr, rv, hop, hpre, happ⟩ |
      ⟨sender, time, aid, amount, hop, hpre, happ⟩ |
      ⟨sender, time, aid, maxAmount, hop, hpre, happ⟩ |
      ⟨sender, time, aid, hop, hpre, happ⟩ |
      ⟨sender, time, aid, hop, hpre, happ⟩ |
      ⟨sender, time, aid, hop, hpre, happ⟩ |
      ⟨sender, auctioneer, isAuct, hop, happ⟩ |
      ⟨sender, fee, hop, happ⟩
    · cases op <;> simp [successfulBids, hfail, hsame]
    · subst hop
      have hred : successfulBids s
          (Op.create sender time ttl desc img ty startT endT minInc extT hr rv :: rest) aucId =
          successfulBids (applyOp s
            (Op.create sender time ttl desc img ty startT endT minInc extT hr rv)) rest aucId := rfl
      rw [hred, happ, hiVal_caState_eq]
    · subst hop
      have hok : txOk (execOp s (Op.bid sender time aid amount)) = true :=
        (placeBid_ok_iff s sender time aid amount).2 hpre
      have hred : successfulBids s (Op.bid sender time aid amount :: rest) aucId =
          if aid = aucId ∧ txOk (execOp s (Op.bid sender time aid amount)) = true then
            amount :: successfulBids (applyOp s (Op.bid sender time aid amount)) rest aucId
          else successfulBids (applyOp s (Op.bid sender time aid amount)) rest aucId := rfl
      by_cases hid : aid = aucId
      · rw [hred, if_pos ⟨hid, hok⟩, List.foldr_cons, happ]
        rw [← hid, hiVal_pbState_self s sender time aid amount hpre.1]
        rw [Nat.max_comm (hiVal s aid) amount, foldr_max_pull]
      · rw [hred, if_neg (by intro hc; exact hid hc.1), happ,
          hiVal_pbState_ne s sender time aid amount aucId hpre.1 hid]
    · subst hop
      have hred : successfulBids s (Op.autoBid sender time aid maxAmount :: rest) aucId =
          successfulBids (applyOp s (Op.autoBid sender time aid maxAmount)) rest aucId := rfl
      rw [hred, happ, hiVal_abState_eq s sender aid maxAmount aucId hpre.1]
    · subst hop
      have hred : successfulBids s (Op.endAuc sender time aid :: rest) aucId =
          successfulBids (applyOp s (Op.endAuc sender time aid)) rest aucId := rfl
      rw [hred, happ, hiVal_endState_eq s aid aucId hpre.1]
    · subst hop
      have hred : successfulBids s (Op.cancel sender time aid :: rest) aucId =
          successfulBids (applyOp s (Op.cancel sender time aid)) rest aucId := rfl
      rw [hred, happ, hiVal_cancelState_eq s aid aucId hpre.1]
    · subst hop
      have hred : successfulBids s (Op.reveal sender time aid :: rest) aucId =
          successfulBids (applyOp s (Op.reveal sender time aid)) rest aucId := rfl
      have hga : hiVal (revState s aid) aucId = hiVal s aucId := by
        unfold hiVal
        rw [getA_eq_of_auctions s _ (revState_auctions s aid) aucId]
      rw [hred, happ, hga]
    · subst hop
      have hred : successfulBids s (Op.setAuct sender auctioneer isAuct :: rest) aucId =
          successfulBids (applyOp s (Op.setAuct sender auctioneer isAuct)) rest aucId := rfl
      have hga : hiVal (auctState s auctioneer isAuct) aucId = hiVal s aucId := by
        unfold hiVal
        rw [getA_eq_of_auctions s _ (auctState_auctions s auctioneer isAuct) aucId]
      rw [hred, happ, hga]
    · subst hop
      have hred : successfulBids s (Op.setFee sender fee :: rest) aucId =
          successfulBids (applyOp s (Op.setFee sender fee)) rest aucId := rfl
      have hga : hiVal (feeState s fee) aucId = hiVal s aucId := by
        unfold hiVal
        rw [getA_eq_of_auctions s _ (feeState_auctions s fee) aucId]
      rw [hred, happ, hga]

lemma hiVal_initial (deployer auctionId : Nat) :
    hiVal (initialState deployer) auctionId = 0 := rfl

/-- `maxOf` is invariant under permutation of the submitted amounts. -/
lemma maxOf_perm (l l' : List Nat) (h : l.Perm l') : maxOf l = maxOf l' := by
  unfold maxOf
  induction h with
  | nil => rfl
  | cons x h ih => simp [List.foldr_cons, ih]
  | swap x y t => simp [List.foldr_cons, Nat.max_left_comm]
  | trans h1 h2 ih1 ih2 => rw [ih1, ih2]

/-- A single call never lowers any auction's running maximum. -/
lemma hiVal_mono (s : ContractState) (op : Op) (auctionId : Nat) :
    hiVal s auctionId ≤ hiVal (applyOp s op) auctionId := by
  rcases applyOp_cases s op with ⟨hfail, hsame⟩ |
    ⟨sender, time, ttl, desc, img, ty, startT, endT, minInc, extT, hr, rv, hop, hpre, happ⟩ |
    ⟨sender, time, aid, amount, hop, hpre, happ⟩ |
    ⟨sender, time, aid, maxAmount, hop, hpre, happ⟩ |
    ⟨sender, time, aid, hop, hpre, happ⟩ |
    ⟨sender, time, aid, hop, hpre, happ⟩ |
    ⟨sender, time, aid, hop, hpre, happ⟩ |
    ⟨sender, auctioneer, isAuct, hop, happ⟩ |
    ⟨sender, fee, hop, happ⟩
  · rw [hsame]
  · rw [happ, hiVal_caState_eq]
  · by_cases hid : aid = auctionId
    · subst hid
      rw [happ, hiVal_pbState_self s sender time aid amount hpre.1]
      exact Nat.le_max_left _ _
    · rw [happ, hiVal_pbState_ne s sender time aid amount auctionId hpre.1 hid]
  · rw [happ, hiVal_abState_eq s sender aid maxAmount auctionId hpre.1]
  · rw [happ, hiVal_endState_eq s aid auctionId hpre.1]
  · rw [happ, hiVal_cancelState_eq s aid auctionId hpre.1]
  · rw [happ]
    unfold hiVal
    rw [getA_eq_of_auctions s _ (revState_auctions s aid) auctionId]
  · rw [happ]
    unfold hiVal
    rw [getA_eq_of_auctions s _ (auctState_auctions s auctioneer isAuct) auctionId]
  · rw [happ]
    unfold hiVal
    rw [getA_eq_of_auctions s _ (feeState_auctions s fee) auctionId]

/-- The concrete scenario of spec §8: one auction, bids 100, 150, 120 from
two bidders. -/
def demoOpsA : List Op :=
  [ Op.create 0 0 "item" "demo" "" AuctionType.ENGLISH 0 3600 1 300 false 0,
    Op.bid 1 10 0 100,
    Op.bid 2 20 0 150,
    Op.bid 1 30 0 120 ]

/-- C1: for every auction and every call sequence, the plaintext value of
`encryptedHighestBid` (which starts as encrypted 0) equals the maximum of
the plaintext amounts of all successful `placeBid` calls on it; the maximum
is independent of submission order (`maxOf` is permutation-invariant); and
the value is non-decreasing, no single call ever lowers it (it is only
updated through the oblivious greater-than/select pair). -/
theorem C1_highestBid_tracks_max :
    (∀ deployer ops auctionId,
        hiVal (run deployer ops) auctionId =
          maxOf (successfulBids (initialState deployer) ops auctionId)) ∧
    (∀ l l' : List Nat, l.Perm l' → maxOf l = maxOf l') ∧
    (∀ s op auctionId, hiVal s auctionId ≤ hiVal (applyOp s op) auctionId) := by
  refine ⟨?_, maxOf_perm, hiVal_mono⟩
  intro deployer ops auctionId
  unfold run maxOf
  rw [hiVal_execOps, hiVal_initial]

/-- Witness for C1 on the concrete spec §8 scenario. -/
theorem C1_highestBid_tracks_max_witness :
    hiVal (run 0 demoOpsA) 0 = maxOf (successfulBids (initialState 0) demoOpsA 0) ∧
    maxOf (successfulBids (initialState 0) demoOpsA 0) = 150 ∧
    ([100, 150, 120] : List Nat).Perm [150, 120, 100] ∧
    maxOf [100, 150, 120] = maxOf [150, 120, 100] ∧
    hiVal (run 0 demoOpsA) 0 ≤ hiVal (applyOp (run 0 demoOpsA) (Op.bid 2 40 0 999)) 0 :=
  ⟨C1_highestBid_tracks_max.1 0 demoOpsA 0, by decide, by decide,
   C1_highestBid_tracks_max.2.1 [100, 150, 120] [150, 120, 100] (by decide),
   C1_highestBid_tracks_max.2.2 (run 0 demoOpsA) (Op.bid 2 40 0 999) 0⟩

/-- C3: on every successful `placeBid`, if at call time
`endTime - currentTime <= EXTENSION_THRESHOLD` and `extensionTime > 0`, the
stored `endTime` becomes exactly `old endTime + extensionTime`, the status
becomes EXTENDED, and an `AuctionExtended` event carrying the new `endTime`
is emitted; if more than `EXTENSION_THRESHOLD` seconds remain, `endTime` is
unchanged by the call. -/
theorem C3_extension_policy :
    ∀ s sender time auctionId amount s1 evs,
      placeBid s sender time auctionId amount = .ok (s1, evs) →
      (((getA s auctionId).endTime - time ≤ EXTENSION_THRESHOLD ∧
        0 < (getA s auctionId).extensionTime) →
         (getA s1 auctionId).endTime =
           (getA s auctionId).endTime + (getA s auctionId).extensionTime ∧
         (getA s1 auctionId).status = .EXTENDED ∧
         Event.AuctionExtended auctionId
           ((getA s auctionId).endTime + (getA s auctionId).extensionTime) ∈ evs) ∧
      (EXTENSION_THRESHOLD < (getA s auctionId).endTime - time →
         (getA s1 auctionId).endTime = (getA s auctionId).endTime) := by
  intro s sender time auctionId amount s1 evs h
  have hok : txOk (placeBid s sender time auctionId amount) = true := by
    rw [h]; rfl
  have hpre := (placeBid_ok_iff s sender time auctionId amount).1 hok
  rw [placeBid_eq_of_pre s sender time auctionId amount hpre] at h
  injection h with hpair
  injection hpair with hA hB
  subst hA
  subst hB
  have hget : getA (pbState s sender time auctionId amount) auctionId =
      bidResultAuction (getA s auctionId) sender time amount
        (bidExtend (getA s auctionId) time) s.nextHandle (s.nextHandle + 1) := by
    rw [getA_set_cases s _ auctionId _ rfl hpre.1 auctionId, if_pos rfl]
  constructor
  · rintro ⟨hth, hext⟩
    have hb : bidExtend (getA s auctionId) time = true := by
      unfold bidExtend
      simp [hth, hext]
    refine ⟨?_, ?_, ?_⟩
    · rw [hget]
      simp [bidResultAuction, hb]
    · rw [hget]
      simp [bidResultAuction, hb]
    · unfold pbEvents
      simp [hb]
  · intro hgt
    have hb : bidExtend (getA s auctionId) time = false := by
      unfold bidExtend
      simp [Nat.not_le.2 hgt]
    rw [hget]
    simp [bidResultAuction, hb]

/-- Trace reaching a state where a bid at time 800 (200 seconds before the
end) extends the auction. -/
def demoOpsB : List Op :=
  [ Op.create 0 0 "item" "demo" "" AuctionType.ENGLISH 0 1000 1 100 false 0 ]

/-- Witness for C3: bidding 200 seconds before the end of an auction with
`extensionTime = 100` moves `endTime` from 1000 to 1100 and the status to
EXTENDED. -/
theorem C3_extension_policy_witness :
    ∃ s1 evs, placeBid (run 0 demoOpsB) 1 800 0 42 = .ok (s1, evs) ∧
      (getA s1 0).endTime = 1100 ∧
      (getA s1 0).status = .EXTENDED ∧
      Event.AuctionExtended 0 1100 ∈ evs := by
  have hpre : placeBidPre (run 0 demoOpsB) 1 800 0 := by decide
  have h := placeBid_eq_of_pre (run 0 demoOpsB) 1 800 0 42 hpre
  refine ⟨_, _, h, ?_⟩
  have hres := C3_extension_policy (run 0 demoOpsB) 1 800 0 42 _ _ h
  have hcond : (getA (run 0 demoOpsB) 0).endTime - 800 ≤ EXTENSION_THRESHOLD ∧
      0 < (getA (run 0 demoOpsB) 0).extensionTime := by decide
  obtain ⟨h1, h2, h3⟩ := hres.1 hcond
  have hend : (getA (run 0 demoOpsB) 0).endTime +
      (getA (run 0 demoOpsB) 0).extensionTime = 1100 := by decide
  rw [hend] at h1 h3
  exact ⟨h1, h2, h3⟩

/-- C9: the unsigned subtraction `endTime - block.timestamp` in `placeBid`'s
extension check can never underflow and so never aborts the call: `placeBid`
never reverts with the checked-subtraction panic, because the `auctionActive`
modifier has already enforced `currentTime <= endTime`; in particular, when
all of `placeBid`'s preconditions hold the call succeeds. -/
theorem C9_extension_subtraction_safe :
    (∀ s sender time auctionId amount,
        placeBid s sender time auctionId amount ≠
          Except.error AuctionError.arithmeticUnderflow) ∧
    (∀ s sender time auctionId amount,
        placeBidPre s sender time auctionId →
        txOk (placeBid s sender time auctionId amount) = true) := by
  constructor
  · intro s sender time auctionId amount h
    by_cases h1 : auctionId < s.auctions.length
    case neg => simp [placeBid, h1] at h
    by_cases h2 : biddableStatus (getA s auctionId).status
    case neg =>
      unfold biddableStatus at h2
      simp [placeBid, h1, h2] at h
    by_cases h3 : (getA s auctionId).startTime ≤ time
    case neg =>
      unfold biddableStatus at h2
      simp [placeBid, h1, h2, h3] at h
    by_cases h4 : time ≤ (getA s auctionId).endTime
    case neg =>
      unfold biddableStatus at h2
      simp [placeBid, h1, h2, h3, h4] at h
    by_cases h5 : sender = (getA s auctionId).creator
    case pos =>
      unfold biddableStatus at h2
      simp [placeBid, h1, h2, h3, h4, h5] at h
    rw [placeBid_eq_of_pre s sender time auctionId amount ⟨h1, h2, h3, h4, h5⟩] at h
    simp at h
  · intro s sender time auctionId amount hpre
    rw [placeBid_eq_of_pre s sender time auctionId amount hpre]
    rfl

/-- Witness for C9: a concrete in-window bid succeeds (so the subtraction
with 200 seconds remaining did not abort it). -/
theorem C9_extension_subtraction_safe_witness :
    placeBidPre (run 0 demoOpsB) 1 800 0 ∧
    txOk (placeBid (run 0 demoOpsB) 1 800 0 42) = true ∧
    placeBid (run 0 demoOpsB) 1 800 0 42 ≠
      Except.error AuctionError.arithmeticUnderflow :=
  ⟨by decide,
   C9_extension_subtraction_safe.2 (run 0 demoOpsB) 1 800 0 42 (by decide),
   C9_extension_subtraction_safe.1 (run 0 demoOpsB) 1 800 0 42⟩

/-- Total successful bids recorded for an auction. -/
def tbVal (s : ContractState) (auctionId : Nat) : Nat := (getA s auctionId).totalBids

/-- The auction's bidder list. -/
def bdList (s : ContractState) (auctionId : Nat) : List Nat := (getA s auctionId).bidders

/-- The auction's `hasBid` flag for a principal. -/
def hasB (s : ContractState) (auctionId a : Nat) : Bool := (getA s auctionId).hasBid a

/-- First-occurrence insertion: append a principal unless already present
(exactly what step 6 of the bid pipeline does to `bidders`). -/
def ins (acc : List Nat) (a : Nat) : List Nat := if a ∈ acc then acc else acc ++ [a]

lemma mem_ins (acc : List Nat) (a b : Nat) : b ∈ ins acc a ↔ b ∈ acc ∨ b = a := by
  unfold ins
  split_ifs with h
  · exact ⟨Or.inl, fun hb => hb.elim (fun x => x) (fun he => he ▸ h)⟩
  · simp [List.mem_append]

lemma ins_nodup (acc : List Nat) (a : Nat) (h : acc.Nodup) : (ins acc a).Nodup := by
  unfold ins
  split_ifs with hm
  · exact h
  · simp [List.nodup_append, h, hm]

lemma foldl_ins_nodup (l : List Nat) : ∀ acc, acc.Nodup → (l.foldl ins acc).Nodup := by
  induction l with
  | nil => intro acc h; exact h
  | cons a t ih => intro acc h; exact ih _ (ins_nodup acc a h)

lemma mem_foldl_ins (l : List Nat) : ∀ acc b, b ∈ l.foldl ins acc ↔ b ∈ acc ∨ b ∈ l := by
  induction l with
  | nil => intro acc b; simp
  | cons a t ih =>
    intro acc b
    simp only [List.foldl_cons, ih, mem_ins, List.mem_cons]
    tauto

/-- Per-auction coherence: `bidders` has no duplicates and matches `hasBid`. -/
def Coh (s : ContractState) : Prop := ∀ auctionId,
  (bdList s auctionId).Nodup ∧
  ∀ a, a ∈ bdList s auctionId ↔ hasB s auctionId a = true

lemma default_auction_bidders : (default : Auction).bidders = [] := rfl

lemma default_auction_hasBid (a : Nat) : (default : Auction).hasBid a = false := rfl

lemma default_auction_totalBids : (default : Auction).totalBids = 0 := rfl

lemma default_auction_status : (default : Auction).status = .PENDING := rfl

lemma default_auction_creator : (default : Auction).creator = 0 := rfl

lemma coh_initial (deployer : Nat) : Coh (initialState deployer) := by
  intro auctionId
  constructor
  · exact List.nodup_nil
  · intro a
    simp [bdList, hasB, getA, initialState, default_auction_bidders,
      default_auction_hasBid]

/-- The bidder list written by a successful bid is a first-occurrence
insertion, given coherence of the pre-state. -/
lemma bidResult_bidders (a : Auction) (sender time amount : Nat) (e : Bool)
    (h1 h2 : Nat) (hcoh : ∀ x, x ∈ a.bidders ↔ a.hasBid x = true) :
    (bidResultAuction a sender time amount e h1 h2).bidders = ins a.bidders sender := by
  unfold bidResultAuction ins
  by_cases hs : a.hasBid sender
  · simp [hs, (hcoh sender).2 hs]
  · have : sender ∉ a.bidders := fun hm => hs ((hcoh sender).1 hm)
    simp [hs, this]

lemma bidResult_hasBid (a : Auction) (sender time amount : Nat) (e : Bool)
    (h1 h2 : Nat) (x : Nat) :
    (bidResultAuction a sender time amount e h1 h2).hasBid x =
      (a.hasBid x || decide (x = sender)) := by
  unfold bidResultAuction updF
  by_cases hs : a.hasBid sender
  · by_cases hx : x = sender
    · subst hx
      simp [hs]
    · simp [hs, hx]
  · by_cases hx : x = sender
    · subst hx
      simp [hs]
    · simp [hs, hx]

lemma bidResult_totalBids (a : Auction) (sender time amount : Nat) (e : Bool)
    (h1 h2 : Nat) :
    (bidResultAuction a sender time amount e h1 h2).totalBids = a.totalBids + 1 := rfl

/-- Coherence is preserved by every call. -/
lemma coh_step (s : ContractState) (op : Op) (h : Coh s) : Coh (applyOp s op) := by
  rcases applyOp_cases s op with ⟨hfail, hsame⟩ |
    ⟨sender, time, ttl, desc, img, ty, startT, endT, minInc, extT, hr, rv, hop, hpre, happ⟩ |
    ⟨sender, time, aid, amount, hop, hpre, happ⟩ |
    ⟨sender, time, aid, maxAmount, hop, hpre, happ⟩ |
    ⟨sender, time, aid, hop, hpre, happ⟩ |
    ⟨sender, time, aid, hop, hpre, happ⟩ |
    ⟨sender, time, aid, hop, hpre, happ⟩ |
    ⟨sender, auctioneer, isAuct, hop, happ⟩ |
    ⟨sender, fee, hop, happ⟩
  · rw [hsame]; exact h
  · rw [happ]
    intro aucId
    unfold bdList hasB
    rw [getA_caState_cases]
    split_ifs with h1 h2
    · exact h aucId
    · constructor
      · exact List.nodup_nil
      · intro a
        simp [newAuctionRecord]
    · constructor
      · exact List.nodup_nil
      · intro a
        simp [default_auction_bidders, default_auction_hasBid]
  · rw [happ]
    intro aucId
    unfold bdList hasB
    rw [getA_set_cases s _ aid _ rfl hpre.1 aucId]
    split_ifs with he
    · subst he
      obtain ⟨hnd, hmem⟩ := h aid
      have hnd' : (getA s aid).bidders.Nodup := hnd
      have hmem' : ∀ x, x ∈ (getA s aid).bidders ↔ (getA s aid).hasBid x = true :=
        fun x => hmem x
      rw [bidResult_bidders _ _ _ _ _ _ _ hmem']
      constructor
      · exact ins_nodup _ _ hnd'
      · intro a
        rw [mem_ins, bidResult_hasBid]
        simp only [Bool.or_eq_true, decide_eq_true_eq]
        rw [hmem' a]
    · exact h aucId
  · rw [happ]
    intro aucId
    unfold bdList hasB
    rw [getA_set_cases s _ aid _ rfl hpre.1 aucId]
    split_ifs with he
    · subst he
      exact h aid
    · exact h aucId
  · rw [happ]
    intro aucId
    unfold bdList hasB
    rw [getA_set_cases s _ aid _ rfl hpre.1 aucId]
    split_ifs with he
    · subst he
      exact h aid
    · exact h aucId
  · rw [happ]
    intro aucId
    unfold bdList hasB
    rw [getA_set_cases s _ aid _ rfl hpre.1 aucId]
    split_ifs with he
    · subst he
      exact h aid
    · exact h aucId
  · rw [happ]
    intro aucId
    unfold bdList hasB
    rw [getA_eq_of_auctions s _ (revState_auctions s aid) aucId]
    exact h aucId
  · rw [happ]
    intro aucId
    unfold bdList hasB
    rw [getA_eq_of_auctions s _ (auctState_auctions s auctioneer isAuct) aucId]
    exact h aucId
  · rw [happ]
    intro aucId
    unfold bdList hasB
    rw [getA_eq_of_auctions s _ (feeState_auctions s fee) aucId]
    exact h aucId

lemma bd_tb_caState (s : ContractState) (sender : Nat) (ttl desc img : String)
    (ty : AuctionType) (startT endT minInc extT : Nat) (hasReserve : Bool)
    (reserveVal : Nat) (aucId : Nat) :
    bdList (caState s sender ttl desc img ty startT endT minInc extT hasReserve
      reserveVal) aucId = bdList s aucId ∧
    tbVal (caState s sender ttl desc img ty startT endT minInc extT hasReserve
      reserveVal) aucId = tbVal s aucId := by
  unfold bdList tbVal
  rw [getA_caState_cases]
  split_ifs with h1 h2
  · exact ⟨rfl, rfl⟩
  · subst h2
    rw [getA_of_le s _ (Nat.le_refl _)]
    exact ⟨rfl, rfl⟩
  · rw [getA_of_le s aucId (by omega)]
    exact ⟨rfl, rfl⟩

lemma bd_tb_abState (s : ContractState) (sender aid maxAmount : Nat)
    (h : aid < s.auctions.length) (aucId : Nat) :
    bdList (abState s sender aid maxAmount) aucId = bdList s aucId ∧
    tbVal (abState s sender aid maxAmount) aucId = tbVal s aucId := by
  unfold bdList tbVal
  rw [getA_set_cases s _ aid _ rfl h aucId]
  split_ifs with he
  · subst he
    exact ⟨rfl, rfl⟩
  · exact ⟨rfl, rfl⟩

lemma bd_tb_endState (s : ContractState) (aid : Nat)
    (h : aid < s.auctions.length) (aucId : Nat) :
    bdList (endState s aid) aucId = bdList s aucId ∧
    tbVal (endState s aid) aucId = tbVal s aucId := by
  unfold bdList tbVal
  rw [getA_set_cases s _ aid _ rfl h aucId]
  split_ifs with he
  · subst he
    exact ⟨rfl, rfl⟩
  · exact ⟨rfl, rfl⟩

lemma bd_tb_cancelState (s : ContractState) (aid : Nat)
    (h : aid < s.auctions.length) (aucId : Nat) :
    bdList (cancelState s aid) aucId = bdList s aucId ∧
    tbVal (cancelState s aid) aucId = tbVal s aucId := by
  unfold bdList tbVal
  rw [getA_set_cases s _ aid _ rfl h aucId]
  split_ifs with he
  · subst he
    exact ⟨rfl, rfl⟩
  · exact ⟨rfl, rfl⟩

/-- Core of C6: along any call sequence the bidder list is the
first-occurrence fold of the successful bidders, and `totalBids` counts the
successful bids. -/
lemma bid_bookkeeping_execOps (ops : List Op) : ∀ s aucId, Coh s →
    bdList (execOps s ops) aucId =
      (successfulBidders s ops aucId).foldl ins (bdList s aucId) ∧
    tbVal (execOps s ops) aucId =
      tbVal s aucId + (successfulBids s ops aucId).length := by
  induction ops with
  | nil => intro s aucId hcoh; exact ⟨rfl, rfl⟩
  | cons op rest ih =>
    intro s aucId hcoh
    obtain ⟨ihb, iht⟩ := ih (applyOp s op) aucId (coh_step s op hcoh)
    refine ⟨?_, ?_⟩
    · show bdList (execOps (applyOp s op) rest) aucId = _
      rw [ihb]
      rcases applyOp_cases s op with ⟨hfail, hsame⟩ |
        ⟨sender, time, ttl, desc, img, ty, startT, endT, minInc, extT, hr, rv, hop, hpre, happ⟩ |
        ⟨sender, time, aid, amount, hop, hpre, happ⟩ |
        ⟨sender, time, aid, maxAmount, hop, hpre, happ⟩ |
        ⟨sender, time, aid, hop, hpre, happ⟩ |
        ⟨sender, time, aid, hop, hpre, happ⟩ |
        ⟨sender, time, aid, hop, hpre, happ⟩ |
        ⟨sender, auctioneer, isAuct, hop, happ⟩ |
        ⟨sender, fee, hop, happ⟩
      · cases op <;> simp [successfulBidders, hfail, hsame]
      · subst hop
        have hred : successfulBidders s
            (Op.create sender time ttl desc img ty startT endT minInc extT hr rv :: rest) aucId =
            successfulBidders (applyOp s
              (Op.create sender time ttl desc img ty startT endT minInc extT hr rv)) rest aucId := rfl
        rw [hred, happ, (bd_tb_caState s sender ttl desc img ty startT endT minInc
          extT hr rv aucId).1]
      · subst hop
        have hok : txOk (execOp s (Op.bid sender time aid amount)) = true :=
          (placeBid_ok_iff s sender time aid amount).2 hpre
        have hred : successfulBidders s (Op.bid sender time aid amount :: rest) aucId =
            if aid = aucId ∧ txOk (execOp s (Op.bid sender time aid amount)) = true then
              sender :: successfulBidders (applyOp s (Op.bid sender time aid amount)) rest aucId
            else successfulBidders (applyOp s (Op.bid sender time aid amount)) rest aucId := rfl
        by_cases hid : aid = aucId
        · rw [hred, if_pos ⟨hid, hok⟩, List.foldl_cons, happ]
          subst hid
          obtain ⟨hnd, hmem⟩ := hcoh aid
          have hmem' : ∀ x, x ∈ (getA s aid).bidders ↔ (getA s aid).hasBid x = true :=
            fun x => hmem x
          have hbd : bdList (pbState s sender time aid amount) aid =
              ins (bdList s aid) sender := by
            unfold bdList
            rw [getA_set_cases s _ aid _ rfl hpre.1 aid, if_pos rfl]
            exact bidResult_bidders _ _ _ _ _ _ _ hmem'
          rw [hbd]
        · rw [hred, if_neg (by intro hc; exact hid hc.1), happ]
          have hbd : bdList (pbState s sender time aid amount) aucId = bdList s aucId := by
            unfold bdList
            rw [getA_set_cases s _ aid _ rfl hpre.1 aucId, if_neg hid]
          rw [hbd]
      · subst hop
        have hred : successfulBidders s (Op.autoBid sender time aid maxAmount :: rest) aucId =
            successfulBidders (applyOp s (Op.autoBid sender time aid maxAmount)) rest aucId := rfl
        rw [hred, happ, (bd_tb_abState s sender aid maxAmount hpre.1 aucId).1]
      · subst hop
        have hred : successfulBidders s (Op.endAuc sender time aid :: rest) aucId =
            successfulBidders (applyOp s (Op.endAuc sender time aid)) rest aucId := rfl
        rw [hred, happ, (bd_tb_endState s aid hpre.1 aucId).1]
      · subst hop
        have hred : successfulBidders s (Op.cancel sender time aid :: rest) aucId =
            successfulBidders (applyOp s (Op.cancel sender time aid)) rest aucId := rfl
        rw [hred, happ, (bd_tb_cancelState s aid hpre.1 aucId).1]
      · subst hop
        have hred : successfulBidders s (Op.reveal sender time aid :: rest) aucId =
            successfulBidders (applyOp s (Op.reveal sender time aid)) rest aucId := rfl
        have hbd : bdList (revState s aid) aucId = bdList s aucId := by
          unfold bdList
          rw [getA_eq_of_auctions s _ (revState_auctions s aid) aucId]
        rw [hred, happ, hbd]
      · subst hop
        have hred : successfulBidders s (Op.setAuct sender auctioneer isAuct :: rest) aucId =
            successfulBidders (applyOp s (Op.setAuct sender auctioneer isAuct)) rest aucId := rfl
        have hbd : bdList (auctState s auctioneer isAuct) aucId = bdList s aucId := by
          unfold bdList
          rw [getA_eq_of_auctions s _ (auctState_auctions s auctioneer isAuct) aucId]
        rw [hred, happ, hbd]
      · subst hop
        have hred : successfulBidders s (Op.setFee sender fee :: rest) aucId =
            successfulBidders (applyOp s (Op.setFee sender fee)) rest aucId := rfl
        have hbd : bdList (feeState s fee) aucId = bdList s aucId := by
          unfold bdList
          rw [getA_eq_of_auctions s _ (feeState_auctions s fee) aucId]
        rw [hred, happ, hbd]
    · show tbVal (execOps (applyOp s op) rest) aucId = _
      rw [iht]
      rcases applyOp_cases s op with ⟨hfail, hsame⟩ |
        ⟨sender, time, ttl, desc, img, ty, startT, endT, minInc, extT, hr, rv, hop, hpre, happ⟩ |
        ⟨sender, time, aid, amount, hop, hpre, happ⟩ |
        ⟨sender, time, aid, maxAmount, hop, hpre, happ⟩ |
        ⟨sender, time, aid, hop, hpre, happ⟩ |
        ⟨sender, time, aid, hop, hpre, happ⟩ |
        ⟨sender, time, aid, hop, hpre, happ⟩ |
        ⟨sender, auctioneer, isAuct, hop, happ⟩ |
        ⟨sender, fee, hop, happ⟩
      · cases op <;> simp [successfulBids, hfail, hsame]
      · subst hop
        have hred : successfulBids s
            (Op.create sender time ttl desc img ty startT endT minInc extT hr rv :: rest) aucId =
            successfulBids (applyOp s
              (Op.create sender time ttl desc img ty startT endT minInc extT hr rv)) rest aucId := rfl
        rw [hred, happ, (bd_tb_caState s sender ttl desc img ty startT endT minInc
          extT hr rv aucId).2]
      · subst hop
        have hok : txOk (execOp s (Op.bid sender time aid amount)) = true :=
          (placeBid_ok_iff s sender time aid amount).2 hpre
        have hred : successfulBids s (Op.bid sender time aid amount :: rest) aucId =
            if aid = aucId ∧ txOk (execOp s (Op.bid sender time aid amount)) = true then
              amount :: successfulBids (applyOp s (Op.bid sender time aid amount)) rest aucId
            else successfulBids (applyOp s (Op.bid sender time aid amount)) rest aucId := rfl
        by_cases hid : aid = aucId
        · rw [hred, if_pos ⟨hid, hok⟩, happ]
          subst hid
          have htb : tbVal (pbState s sender time aid amount) aid = tbVal s aid + 1 := by
            unfold tbVal
            rw [getA_set_cases s _ aid _ rfl hpre.1 aid, if_pos rfl]
            exact bidResult_totalBids _ _ _ _ _ _ _
          rw [htb, List.length_cons]
          omega
        · rw [hred, if_neg (by intro hc; exact hid hc.1), happ]
          have htb : tbVal (pbState s sender time aid amount) aucId = tbVal s aucId := by
            unfold tbVal
            rw [getA_set_cases s _ aid _ rfl hpre.1 aucId, if_neg hid]
          rw [htb]
      · subst hop
        have hred : successfulBids s (Op.autoBid sender time aid maxAmount :: rest) aucId =
            successfulBids (applyOp s (Op.autoBid sender time aid maxAmount)) rest aucId := rfl
        rw [hred, happ, (bd_tb_abState s sender aid maxAmount hpre.1 aucId).2]
      · subst hop
        have hred : successfulBids s (Op.endAuc sender time aid :: rest) aucId =
            successfulBids (applyOp s (Op.endAuc sender time aid)) rest aucId := rfl
        rw [hred, happ, (bd_tb_endState s aid hpre.1 aucId).2]
      · subst hop
        have hred : successfulBids s (Op.cancel sender time aid :: rest) aucId =
            successfulBids (applyOp s (Op.cancel sender time aid)) rest aucId := rfl
        rw [hred, happ, (bd_tb_cancelState s aid hpre.1 aucId).2]
      · subst hop
        have hred : successfulBids s (Op.reveal sender time aid :: rest) aucId =
            successfulBids (applyOp s (Op.reveal sender time aid)) rest aucId := rfl
        have htb : tbVal (revState s aid) aucId = tbVal s aucId := by
          unfold tbVal
          rw [getA_eq_of_auctions s _ (revState_auctions s aid) aucId]
        rw [hred, happ, htb]
      · subst hop
        have hred : successfulBids s (Op.setAuct sender auctioneer isAuct :: rest) aucId =
            successfulBids (applyOp s (Op.setAuct sender auctioneer isAuct)) rest aucId := rfl
        have htb : tbVal (auctState s auctioneer isAuct) aucId = tbVal s aucId := by
          unfold tbVal
          rw [getA_eq_of_auctions s _ (auctState_auctions s auctioneer isAuct) aucId]
        rw [hred, happ, htb]
      · subst hop
        have hred : successfulBids s (Op.setFee sender fee :: rest) aucId =
            successfulBids (applyOp s (Op.setFee sender fee)) rest aucId := rfl
        have htb : tbVal (feeState s fee) aucId = tbVal s aucId := by
          unfold tbVal
          rw [getA_eq_of_auctions s _ (feeState_auctions s fee) aucId]
        rw [hred, happ, htb]

/-- C6: after any call sequence, for every auction: `totalBids` equals the
number of successful `placeBid` calls on it (repeats included); `bidders` is
the first-occurrence fold of the successful bidders (insertion order is
first-bid order), so its length is the number of distinct callers; a
principal is in `bidders` iff its `hasBid` flag is set; and `bidders` has no
duplicates. -/
theorem C6_bid_bookkeeping :
    ∀ deployer ops auctionId,
      tbVal (run deployer ops) auctionId =
        (successfulBids (initialState deployer) ops auctionId).length ∧
      bdList (run deployer ops) auctionId =
        (successfulBidders (initialState deployer) ops auctionId).foldl ins [] ∧
      (bdList (run deployer ops) auctionId).length =
        (successfulBidders (initialState deployer) ops auctionId).dedup.length ∧
      (∀ a, a ∈ bdList (run deployer ops) auctionId ↔
          hasB (run deployer ops) auctionId a = true) ∧
      (bdList (run deployer ops) auctionId).Nodup := by
  intro deployer ops auctionId
  unfold run
  have hcoh0 := coh_initial deployer
  obtain ⟨hbd, htb⟩ := bid_bookkeeping_execOps ops (initialState deployer) auctionId hcoh0
  have hcohR := execOps_preserve Coh coh_step ops (initialState deployer) hcoh0
  obtain ⟨hnd, hmem⟩ := hcohR auctionId
  have hbd0 : bdList (initialState deployer) auctionId = [] := rfl
  have htb0 : tbVal (initialState deployer) auctionId = 0 := rfl
  rw [hbd0] at hbd
  rw [htb0] at htb
  refine ⟨by rw [htb]; omega, hbd, ?_, hmem, hnd⟩
  have hperm : (bdList (execOps (initialState deployer) ops) auctionId).Perm
      (successfulBidders (initialState deployer) ops auctionId).dedup := by
    refine (List.perm_ext_iff_of_nodup hnd (List.nodup_dedup _)).2 ?_
    intro a
    rw [List.mem_dedup, hbd, mem_foldl_ins]
    simp
  exact hperm.length_eq

/-- C10 invariant: a status of ACTIVE, EXTENDED or ENDED implies at least one
recorded bid. -/
def Inv10 (s : ContractState) : Prop := ∀ auctionId,
  ((getA s auctionId).status = .ACTIVE ∨ (getA s auctionId).status = .EXTENDED ∨
   (getA s auctionId).status = .ENDED) → 1 ≤ (getA s auctionId).totalBids

lemma inv10_initial (deployer : Nat) : Inv10 (initialState deployer) := by
  intro auctionId h
  exfalso
  have : getA (initialState deployer) auctionId = default := rfl
  rw [this, default_auction_status] at h
  rcases h with h | h | h <;> exact AuctionStatus.noConfusion h

lemma inv10_step (s : ContractState) (op : Op) (h : Inv10 s) : Inv10 (applyOp s op) := by
  rcases applyOp_cases s op with ⟨hfail, hsame⟩ |
    ⟨sender, time, ttl, desc, img, ty, startT, endT, minInc, extT, hr, rv, hop, hpre, happ⟩ |
    ⟨sender, time, aid, amount, hop, hpre, happ⟩ |
    ⟨sender, time, aid, maxAmount, hop, hpre, happ⟩ |
    ⟨sender, time, aid, hop, hpre, happ⟩ |
    ⟨sender, time, aid, hop, hpre, happ⟩ |
    ⟨sender, time, aid, hop, hpre, happ⟩ |
    ⟨sender, auctioneer, isAuct, hop, happ⟩ |
    ⟨sender, fee, hop, happ⟩
  · rw [hsame]; exact h
  · rw [happ]
    intro aucId
    rw [getA_caState_cases]
    split_ifs with h1 h2
    · exact h aucId
    · intro hst
      exfalso
      rcases hst with hst | hst | hst <;> simp [newAuctionRecord] at hst
    · intro hst
      exfalso
      rcases hst with hst | hst | hst <;> exact hst
  · rw [happ]
    intro aucId
    rw [getA_set_cases s _ aid _ rfl hpre.1 aucId]
    split_ifs with he
    · intro _
      rw [bidResult_totalBids]
      omega
    · exact h aucId
  · rw [happ]
    intro aucId
    rw [getA_set_cases s _ aid _ rfl hpre.1 aucId]
    split_ifs with he
    · subst he
      exact h aid
    · exact h aucId
  · rw [happ]
    intro aucId
    rw [getA_set_cases s _ aid _ rfl hpre.1 aucId]
    split_ifs with he
    · subst he
      intro _
      exact h aid (hpre.2.2.elim Or.inl (fun he2 => Or.inr (Or.inl he2)))
    · exact h aucId
  · rw [happ]
    intro aucId
    rw [getA_set_cases s _ aid _ rfl hpre.1 aucId]
    split_ifs with he
    · subst he
      intro hst
      exfalso
      rcases hst with hst | hst | hst <;> exact absurd hst (by decide)
    · exact h aucId
  · rw [happ]
    intro aucId
    rw [getA_eq_of_auctions s _ (revState_auctions s aid) aucId]
    exact h aucId
  · rw [happ]
    intro aucId
    rw [getA_eq_of_auctions s _ (auctState_auctions s auctioneer isAuct) aucId]
    exact h aucId
  · rw [happ]
    intro aucId
    rw [getA_eq_of_auctions s _ (feeState_auctions s fee) aucId]
    exact h aucId

/-- C10: in every reachable state, status ACTIVE, EXTENDED or ENDED implies
`totalBids >= 1`; `endAuction` succeeds only from status ACTIVE or EXTENDED
(statuses reachable only through a successful bid); hence an auction that
has received no bids can never be explicitly ended. -/
theorem C10_no_end_without_bids :
    (∀ deployer ops auctionId,
        ((getA (run deployer ops) auctionId).status = .ACTIVE ∨
         (getA (run deployer ops) auctionId).status = .EXTENDED ∨
         (getA (run deployer ops) auctionId).status = .ENDED) →
        1 ≤ (getA (run deployer ops) auctionId).totalBids) ∧
    (∀ s sender time auctionId,
        txOk (endAuction s sender time auctionId) = true →
        (getA s auctionId).status = .ACTIVE ∨ (getA s auctionId).status = .EXTENDED) ∧
    (∀ deployer ops sender time auctionId,
        (getA (run deployer ops) auctionId).totalBids = 0 →
        txOk (endAuction (run deployer ops) sender time auctionId) = false) := by
  have hinv : ∀ deployer ops, Inv10 (run deployer ops) := fun deployer ops =>
    execOps_preserve Inv10 inv10_step ops (initialState deployer) (inv10_initial deployer)
  refine ⟨fun deployer ops auctionId => hinv deployer ops auctionId, ?_, ?_⟩
  · intro s sender time auctionId hok
    exact ((endAuction_ok_iff s sender time auctionId).1 hok).2.2
  · intro deployer ops sender time auctionId htb
    refine txOk_false_of_not (fun hok => ?_)
    have hst := ((endAuction_ok_iff _ sender time auctionId).1 hok).2.2
    have := hinv deployer ops auctionId (hst.elim Or.inl (fun he => Or.inr (Or.inl he)))
    omega

/-- Witness for C10: after the §8 scenario the auction is ACTIVE with three
bids; a freshly created bid-less auction cannot be explicitly ended. -/
theorem C10_no_end_without_bids_witness :
    ((getA (run 0 demoOpsA) 0).status = .ACTIVE ∨
     (getA (run 0 demoOpsA) 0).status = .EXTENDED ∨
     (getA (run 0 demoOpsA) 0).status = .ENDED) ∧
    1 ≤ (getA (run 0 demoOpsA) 0).totalBids ∧
    (getA (run 0 demoOpsB) 0).totalBids = 0 ∧
    txOk (endAuction (run 0 demoOpsB) 0 5 0) = false :=
  ⟨by decide, C10_no_end_without_bids.1 0 demoOpsA 0 (by decide), by decide,
   C10_no_end_without_bids.2.2 0 demoOpsB 0 5 0 (by decide)⟩

lemma bidResult_creator (a : Auction) (sender time amount : Nat) (e : Bool)
    (h1 h2 : Nat) :
    (bidResultAuction a sender time amount e h1 h2).creator = a.creator := rfl

/-- C5 invariant: the creator of every auction holds no `hasBid` flag and
never appears in the bidder list. -/
def Inv5 (s : ContractState) : Prop := ∀ auctionId,
  (getA s auctionId).hasBid ((getA s auctionId).creator) = false ∧
  (getA s auctionId).creator ∉ (getA s auctionId).bidders

lemma inv5_initial (deployer : Nat) : Inv5 (initialState deployer) := by
  intro auctionId
  constructor
  · exact default_auction_hasBid _
  · rw [show getA (initialState deployer) auctionId = default from rfl,
      default_auction_bidders]
    exact List.not_mem_nil _

lemma inv5_step (s : ContractState) (op : Op) (h : Inv5 s) : Inv5 (applyOp s op) := by
  rcases applyOp_cases s op with ⟨hfail, hsame⟩ |
    ⟨sender, time, ttl, desc, img, ty, startT, endT, minInc, extT, hr, rv, hop, hpre, happ⟩ |
    ⟨sender, time, aid, amount, hop, hpre, happ⟩ |
    ⟨sender, time, aid, maxAmount, hop, hpre, happ⟩ |
    ⟨sender, time, aid, hop, hpre, happ⟩ |
    ⟨sender, time, aid, hop, hpre, happ⟩ |
    ⟨sender, time, aid, hop, hpre, happ⟩ |
    ⟨sender, auctioneer, isAuct, hop, happ⟩ |
    ⟨sender, fee, hop, happ⟩
  · rw [hsame]; exact h
  · rw [happ]
    intro aucId
    rw [getA_caState_cases]
    split_ifs with h1 h2
    · exact h aucId
    · refine ⟨rfl, ?_⟩
      rw [show (newAuctionRecord sender ttl desc img ty startT endT minInc extT hr
        rv s.nextHandle).bidders = [] from rfl]
      exact List.not_mem_nil _
    · refine ⟨default_auction_hasBid _, ?_⟩
      rw [default_auction_bidders]
      exact List.not_mem_nil _
  · rw [happ]
    intro aucId
    rw [getA_set_cases s _ aid _ rfl hpre.1 aucId]
    split_ifs with he
    · subst he
      obtain ⟨hhb, hbd⟩ := h aid
      have hne : (getA s aid).creator ≠ sender := fun hc => hpre.2.2.2.2 hc.symm
      rw [bidResult_creator]
      constructor
      · rw [bidResult_hasBid]
        simp [hhb, hne]
      · show (getA s aid).creator ∉
          (bidResultAuction (getA s aid) sender time amount _ _ _).bidders
        unfold bidResultAuction
        by_cases hs : (getA s aid).hasBid sender
        · simpa [hs] using hbd
        · simp only [hs, if_neg, Bool.false_eq_true, if_false, List.mem_append,
            List.mem_singleton]
          intro hc
          rcases hc with hc | hc
          · exact hbd hc
          · exact hne hc
    · exact h aucId
  · rw [happ]
    intro aucId
    rw [getA_set_cases s _ aid _ rfl hpre.1 aucId]
    split_ifs with he
    · subst he
      exact h aid
    · exact h aucId
  · rw [happ]
    intro aucId
    rw [getA_set_cases s _ aid _ rfl hpre.1 aucId]
    split_ifs with he
    · subst he
      exact h aid
    · exact h aucId
  · rw [happ]
    intro aucId
    rw [getA_set_cases s _ aid _ rfl hpre.1 aucId]
    split_ifs with he
    · subst he
      exact h aid
    · exact h aucId
  · rw [happ]
    intro aucId
    rw [getA_eq_of_auctions s _ (revState_auctions s aid) aucId]
    exact h aucId
  · rw [happ]
    intro aucId
    rw [getA_eq_of_auctions s _ (auctState_auctions s auctioneer isAuct) aucId]
    exact h aucId
  · rw [happ]
    intro aucId
    rw [getA_eq_of_auctions s _ (feeState_auctions s fee) aucId]
    exact h aucId

/-- The auction of `demoOpsC` is created and then cancelled by its creator. -/
def demoOpsC : List Op :=
  [ Op.create 0 0 "item" "demo" "" AuctionType.ENGLISH 0 1000 1 0 false 0,
    Op.cancel 0 5 0 ]

/-- Counterexample to C5 as stated: a `placeBid` from the creator does not
always fail with the Unauthorized error — here the auction exists, the caller
is its creator, but the status check (`auctionActive` runs before `canBid`)
rejects the cancelled auction first, so the revert reason is the
status error, not `creatorCannotBid`. -/
theorem C5_counterexample :
    (getA (run 0 demoOpsC) 0).creator = 0 ∧
    0 < (run 0 demoOpsC).auctions.length ∧
    txErr (placeBid (run 0 demoOpsC) 0 10 0 7) = some .auctionNotActiveErr ∧
    txErr (placeBid (run 0 demoOpsC) 0 10 0 7) ≠ some .creatorCannotBid := by
  refine ⟨by decide, by decide, by decide, by decide⟩

/-- C5 (amended): a `placeBid` from the auction's creator never succeeds;
whenever the existence and status/time checks pass it fails with the
Unauthorized error `creatorCannotBid`; and in every reachable state the
creator holds no `hasBid` flag and never appears in `bidders`. -/
theorem C5_creator_never_bids :
    (∀ s sender time auctionId amount,
        sender = (getA s auctionId).creator →
        txOk (placeBid s sender time auctionId amount) = false) ∧
    (∀ s sender time auctionId amount,
        sender = (getA s auctionId).creator →
        auctionId < s.auctions.length →
        biddableStatus (getA s auctionId).status →
        (getA s auctionId).startTime ≤ time →
        time ≤ (getA s auctionId).endTime →
        placeBid s sender time auctionId amount = .error .creatorCannotBid) ∧
    (∀ deployer ops auctionId,
        (getA (run deployer ops) auctionId).hasBid
          ((getA (run deployer ops) auctionId).creator) = false ∧
        (getA (run deployer ops) auctionId).creator ∉
          (getA (run deployer ops) auctionId).bidders) := by
  refine ⟨?_, ?_, ?_⟩
  · intro s sender time auctionId amount hc
    refine txOk_false_of_not (fun hok => ?_)
    exact ((placeBid_ok_iff s sender time auctionId amount).1 hok).2.2.2.2 hc
  · intro s sender time auctionId amount hc h1 h2 h3 h4
    unfold biddableStatus at h2
    simp [placeBid, h1, h2, h3, h4, hc]
  · intro deployer ops auctionId
    exact execOps_preserve Inv5 inv5_step ops (initialState deployer)
      (inv5_initial deployer) auctionId

/-- Witness for C5 (amended): the creator bidding inside the window of its
own live auction is rejected with `creatorCannotBid`. -/
theorem C5_creator_never_bids_witness :
    txOk (placeBid (run 0 demoOpsB) 0 500 0 7) = false ∧
    placeBid (run 0 demoOpsB) 0 500 0 7 = .error .creatorCannotBid :=
  ⟨C5_creator_never_bids.1 (run 0 demoOpsB) 0 500 0 7 (by decide),
   C5_creator_never_bids.2.1 (run 0 demoOpsB) 0 500 0 7 (by decide) (by decide)
     (by decide) (by decide) (by decide)⟩

/-- No call ever removes an auction from the registry. -/
lemma auctions_length_mono (s : ContractState) (op : Op) :
    s.auctions.length ≤ (applyOp s op).auctions.length := by
  rcases applyOp_cases s op with ⟨hfail, hsame⟩ |
    ⟨sender, time, ttl, desc, img, ty, startT, endT, minInc, extT, hr, rv, hop, hpre, happ⟩ |
    ⟨sender, time, aid, amount, hop, hpre, happ⟩ |
    ⟨sender, time, aid, maxAmount, hop, hpre, happ⟩ |
    ⟨sender, time, aid, hop, hpre, happ⟩ |
    ⟨sender, time, aid, hop, hpre, happ⟩ |
    ⟨sender, time, aid, hop, hpre, happ⟩ |
    ⟨sender, auctioneer, isAuct, hop, happ⟩ |
    ⟨sender, fee, hop, happ⟩
  · rw [hsame]
  · rw [happ, caState_length]; omega
  · rw [happ, pbState_length]
  · rw [happ, abState_length]
  · rw [happ, endState_length]
  · rw [happ, cancelState_length]
  · rw [happ, revState_auctions]
  · rw [happ, auctState_auctions]
  · rw [happ, feeState_auctions]

/-- No call ever decreases an auction's `totalBids`. -/
lemma tbVal_mono (s : ContractState) (op : Op) (auctionId : Nat) :
    tbVal s auctionId ≤ tbVal (applyOp s op) auctionId := by
  rcases applyOp_cases s op with ⟨hfail, hsame⟩ |
    ⟨sender, time, ttl, desc, img, ty, startT, endT, minInc, extT, hr, rv, hop, hpre, happ⟩ |
    ⟨sender, time, aid, amount, hop, hpre, happ⟩ |
    ⟨sender, time, aid, maxAmount, hop, hpre, happ⟩ |
    ⟨sender, time, aid, hop, hpre, happ⟩ |
    ⟨sender, time, aid, hop, hpre, happ⟩ |
    ⟨sender, time, aid, hop, hpre, happ⟩ |
    ⟨sender, auctioneer, isAuct, hop, happ⟩ |
    ⟨sender, fee, hop, happ⟩
  · rw [hsame]
  · rw [happ, (bd_tb_caState s sender ttl desc img ty startT endT minInc extT hr
      rv auctionId).2]
  · by_cases hid : aid = auctionId
    · subst hid
      rw [happ]
      have htb : tbVal (pbState s sender time aid amount) aid = tbVal s aid + 1 := by
        unfold tbVal
        rw [getA_set_cases s _ aid _ rfl hpre.1 aid, if_pos rfl]
        exact bidResult_totalBids _ _ _ _ _ _ _
      omega
    · rw [happ]
      have htb : tbVal (pbState s sender time aid amount) auctionId = tbVal s auctionId := by
        unfold tbVal
        rw [getA_set_cases s _ aid _ rfl hpre.1 auctionId, if_neg hid]
      omega
  · rw [happ, (bd_tb_abState s sender aid maxAmount hpre.1 auctionId).2]
  · rw [happ, (bd_tb_endState s aid hpre.1 auctionId).2]
  · rw [happ, (bd_tb_cancelState s aid hpre.1 auctionId).2]
  · rw [happ]
    unfold tbVal
    rw [getA_eq_of_auctions s _ (revState_auctions s aid) auctionId]
  · rw [happ]
    unfold tbVal
    rw [getA_eq_of_auctions s _ (auctState_auctions s auctioneer isAuct) auctionId]
  · rw [happ]
    unfold tbVal
    rw [getA_eq_of_auctions s _ (feeState_auctions s fee) auctionId]

/-- A creation followed by one successful bid from principal 1. -/
def demoOpsD : List Op :=
  [ Op.create 0 0 "item" "demo" "" AuctionType.ENGLISH 0 1000 1 0 false 0,
    Op.bid 1 10 0 5 ]

/-- Counterexample to C4 as stated: after a successful `placeBid`, a
`cancelAuction` from a caller that does not satisfy `canManage` fails with
`notAuthorized` (the authorization check runs before the bid check), not
with `cannotCancelWithBids`. -/
theorem C4_counterexample :
    tbVal (run 0 demoOpsD) 0 = 1 ∧
    txErr (cancelAuction (run 0 demoOpsD) 2 20 0) = some .notAuthorized ∧
    txErr (cancelAuction (run 0 demoOpsD) 2 20 0) ≠ some .cannotCancelWithBids := by
  refine ⟨by decide, by decide, by decide⟩

/-- C4 (amended): `cancelAuction` succeeds exactly when the auction exists,
the caller satisfies `canManage` (owner or creator), `totalBids = 0`, and
the status is not ENDED, setting status to CANCELLED; after any successful
`placeBid` on an auction, every subsequent `cancelAuction` call on it fails:
with `cannotCancelWithBids` when the caller satisfies `canManage`, and with
the Unauthorized error otherwise. -/
theorem C4_cancel_guard :
    (∀ s sender time auctionId,
        txOk (cancelAuction s sender time auctionId) = true ↔
          (auctionId < s.auctions.length ∧ canManage s auctionId sender ∧
           (getA s auctionId).totalBids = 0 ∧ (getA s auctionId).status ≠ .ENDED)) ∧
    (∀ s sender time auctionId,
        txOk (cancelAuction s sender time auctionId) = true →
        ∃ s1 evs, cancelAuction s sender time auctionId = .ok (s1, evs) ∧
          (getA s1 auctionId).status = .CANCELLED) ∧
    (∀ s sender time auctionId amount s1 evs,
        placeBid s sender time auctionId amount = .ok (s1, evs) →
        ∀ ops sender2 time2,
          txOk (cancelAuction (execOps s1 ops) sender2 time2 auctionId) = false ∧
          (canManage (execOps s1 ops) auctionId sender2 →
            cancelAuction (execOps s1 ops) sender2 time2 auctionId =
              .error .cannotCancelWithBids)) := by
  refine ⟨?_, ?_, ?_⟩
  · intro s sender time auctionId
    rw [cancelAuction_ok_iff]
    unfold cancelPre
    exact Iff.rfl
  · intro s sender time auctionId hok
    have hpre := (cancelAuction_ok_iff s sender time auctionId).1 hok
    refine ⟨cancelState s auctionId, [Event.AuctionCancelled auctionId],
      cancelAuction_eq_of_pre s sender time auctionId hpre, ?_⟩
    unfold cancelState
    show (getA { s with auctions := s.auctions.set auctionId _ } auctionId).status = _
    rw [getA_set_cases s _ auctionId _ rfl hpre.1 auctionId, if_pos rfl]
  · intro s sender time auctionId amount s1 evs h ops sender2 time2
    have hok : txOk (placeBid s sender time auctionId amount) = true := by
      rw [h]; rfl
    have hpre := (placeBid_ok_iff s sender time auctionId amount).1 hok
    rw [placeBid_eq_of_pre s sender time auctionId amount hpre] at h
    injection h with hpair
    injection hpair with hA hB
    subst hA
    have htb1 : 1 ≤ tbVal (pbState s sender time auctionId amount) auctionId := by
      unfold tbVal
      rw [getA_set_cases s _ auctionId _ rfl hpre.1 auctionId, if_pos rfl,
        bidResult_totalBids]
      omega
    have htbF : 1 ≤ tbVal (execOps (pbState s sender time auctionId amount) ops) auctionId :=
      Nat.le_trans htb1
        (execOps_mono (fun s2 => tbVal s2 auctionId) (fun s2 op2 => tbVal_mono s2 op2 auctionId)
          ops (pbState s sender time auctionId amount))
    have hlen1 : auctionId < (pbState s sender time auctionId amount).auctions.length := by
      rw [pbState_length]
      exact hpre.1
    have hlenF : auctionId <
        (execOps (pbState s sender time auctionId amount) ops).auctions.length :=
      Nat.lt_of_lt_of_le hlen1
        (execOps_mono (fun s2 => s2.auctions.length) auctions_length_mono ops
          (pbState s sender time auctionId amount))
    constructor
    · refine txOk_false_of_not (fun hok2 => ?_)
      have hpre2 := (cancelAuction_ok_iff _ sender2 time2 auctionId).1 hok2
      have := hpre2.2.2.1
      unfold tbVal at htbF
      omega
    · intro hmg
      unfold canManage at hmg
      refine cancelAuction_err_bids _ sender2 time2 auctionId hlenF hmg ?_
      unfold tbVal at htbF
      omega

/-- Witness for C4 (amended): cancelling a bid-less auction succeeds; after
one successful bid an authorized cancel fails with `cannotCancelWithBids`. -/
theorem C4_cancel_guard_witness :
    txOk (cancelAuction (run 0 demoOpsB) 0 5 0) = true ∧
    cancelAuction (execOps (pbState (run 0 demoOpsB) 1 10 0 5) []) 0 20 0 =
      .error .cannotCancelWithBids :=
  ⟨(C4_cancel_guard.1 (run 0 demoOpsB) 0 5 0).2 (by decide),
   (C4_cancel_guard.2.2 (run 0 demoOpsB) 1 10 0 5
      (pbState (run 0 demoOpsB) 1 10 0 5) (pbEvents (run 0 demoOpsB) 1 10 0)
      (placeBid_eq_of_pre (run 0 demoOpsB) 1 10 0 5 (by decide)) [] 0 20).2
    (by decide)⟩

/-- Handle freshness: every ACL entry refers to an already-allocated handle. -/
def aclWf (s : ContractState) : Prop := ∀ hp ∈ s.acl, hp.1 < s.nextHandle

lemma aclWf_initial (deployer : Nat) : aclWf (initialState deployer) := by
  intro hp hmem
  exact absurd hmem (List.not_mem_nil hp)

lemma aclWf_step (s : ContractState) (op : Op) (h : aclWf s) : aclWf (applyOp s op) := by
  rcases applyOp_cases s op with ⟨hfail, hsame⟩ |
    ⟨sender, time, ttl, desc, img, ty, startT, endT, minInc, extT, hr, rv, hop, hpre, happ⟩ |
    ⟨sender, time, aid, amount, hop, hpre, happ⟩ |
    ⟨sender, time, aid, maxAmount, hop, hpre, happ⟩ |
    ⟨sender, time, aid, hop, hpre, happ⟩ |
    ⟨sender, time, aid, hop, hpre, happ⟩ |
    ⟨sender, time, aid, hop, hpre, happ⟩ |
    ⟨sender, auctioneer, isAuct, hop, happ⟩ |
    ⟨sender, fee, hop, happ⟩
  · rw [hsame]; exact h
  · rw [happ]
    intro hp hmem
    have ha : (caState s sender ttl desc img ty startT endT minInc extT hr rv).acl =
        if hr then
          (s.nextHandle + 1, Principal.contractAcct) ::
          (s.nextHandle + 1, Principal.user sender) ::
          (s.nextHandle, Principal.contractAcct) ::
          (s.nextHandle, Principal.user sender) :: s.acl
        else
          (s.nextHandle, Principal.contractAcct) ::
          (s.nextHandle, Principal.user sender) :: s.acl := rfl
    have hn : (caState s sender ttl desc img ty startT endT minInc extT hr
        rv).nextHandle = if hr then s.nextHandle + 2 else s.nextHandle + 1 := rfl
    rw [ha] at hmem
    rw [hn]
    by_cases hhr : hr = true
    · rw [if_pos hhr] at hmem
      rw [if_pos hhr]
      simp only [List.mem_cons] at hmem
      rcases hmem with rfl | rfl | rfl | rfl | hmem
      · show s.nextHandle + 1 < s.nextHandle + 2
        omega
      · show s.nextHandle + 1 < s.nextHandle + 2
        omega
      · show s.nextHandle < s.nextHandle + 2
        omega
      · show s.nextHandle < s.nextHandle + 2
        omega
      · have := h hp hmem
        omega
    · rw [if_neg hhr] at hmem
      rw [if_neg hhr]
      simp only [List.mem_cons] at hmem
      rcases hmem with rfl | rfl | hmem
      · show s.nextHandle < s.nextHandle + 1
        omega
      · show s.nextHandle < s.nextHandle + 1
        omega
      · have := h hp hmem
        omega
  · rw [happ]
    intro hp hmem
    have ha : (pbState s sender time aid amount).acl =
        (s.nextHandle + 1, Principal.contractAcct) ::
        (s.nextHandle + 1, Principal.user (getA s aid).creator) ::
        (s.nextHandle, Principal.contractAcct) ::
        (s.nextHandle, Principal.user sender) :: s.acl := rfl
    have hn : (pbState s sender time aid amount).nextHandle = s.nextHandle + 2 := rfl
    rw [ha] at hmem
    rw [hn]
    simp only [List.mem_cons] at hmem
    rcases hmem with rfl | rfl | rfl | rfl | hmem
    · show s.nextHandle + 1 < s.nextHandle + 2
      omega
    · show s.nextHandle + 1 < s.nextHandle + 2
      omega
    · show s.nextHandle < s.nextHandle + 2
      omega
    · show s.nextHandle < s.nextHandle + 2
      omega
    · have := h hp hmem
      omega
  · rw [happ]
    intro hp hmem
    have ha : (abState s sender aid maxAmount).acl =
        (s.nextHandle, Principal.contractAcct) ::
        (s.nextHandle, Principal.user sender) :: s.acl := rfl
    have hn : (abState s sender aid maxAmount).nextHandle = s.nextHandle + 1 := rfl
    rw [ha] at hmem
    rw [hn]
    simp only [List.mem_cons] at hmem
    rcases hmem with rfl | rfl | hmem
    · show s.nextHandle < s.nextHandle + 1
      omega
    · show s.nextHandle < s.nextHandle + 1
      omega
    · have := h hp hmem
      omega
  · rw [happ]
    exact h
  · rw [happ]
    exact h
  · rw [happ]
    exact h
  · rw [happ]
    exact h
  · rw [happ]
    exact h

lemma aclWf_run (deployer : Nat) (ops : List Op) : aclWf (run deployer ops) :=
  execOps_preserve aclWf aclWf_step ops (initialState deployer) (aclWf_initial deployer)

/-- A trace whose auction has been pushed to EXTENDED by a late bid. -/
def demoOpsE : List Op :=
  [ Op.create 0 0 "item" "demo" "" AuctionType.ENGLISH 0 1000 1 100 false 0,
    Op.bid 1 800 0 5 ]

/-- Counterexample to C2 as stated: the auction exists, the caller is not
the creator, the status is EXTENDED and the call time 900 lies inside
`[startTime, endTime]` — the claim says `setAutoBid` must succeed here — yet
the call reverts (with the auto-bid status error), because the code accepts
only PENDING or ACTIVE and performs no time check. -/
theorem C2_counterexample :
    (getA (run 0 demoOpsE) 0).status = .EXTENDED ∧
    0 < (run 0 demoOpsE).auctions.length ∧
    (getA (run 0 demoOpsE) 0).startTime ≤ 900 ∧
    900 ≤ (getA (run 0 demoOpsE) 0).endTime ∧
    2 ≠ (getA (run 0 demoOpsE) 0).creator ∧
    txOk (setAutoBid (run 0 demoOpsE) 2 900 0 7) = false ∧
    txErr (setAutoBid (run 0 demoOpsE) 2 900 0 7) = some .autoBidOnEnded := by
  refine ⟨by decide, by decide, by decide, by decide, by decide, by decide, by decide⟩

/-- C2 (amended): `setAutoBid` succeeds exactly when the auction exists, the
caller is not the creator, and the status is PENDING or ACTIVE — there is no
time-window check, and EXTENDED is rejected with the same status error as
ended auctions; on success it changes no bid-pipeline state (highest bid,
totalBids, bidders, hasBid, stored bids, status, endTime are untouched) —
it only stores `encryptedMaxAutoBid[caller]`, sets `hasAutoBid[caller]`, and
grants read permission on the fresh ciphertext to the contract and the
caller exclusively. -/
theorem C2_setAutoBid_bookkeeping_only :
    (∀ s sender time auctionId maxAmount,
        txOk (setAutoBid s sender time auctionId maxAmount) = true ↔
          (auctionId < s.auctions.length ∧
           sender ≠ (getA s auctionId).creator ∧
           ((getA s auctionId).status = .PENDING ∨ (getA s auctionId).status = .ACTIVE))) ∧
    (∀ s sender time auctionId maxAmount,
        auctionId < s.auctions.length →
        sender ≠ (getA s auctionId).creator →
        ¬((getA s auctionId).status = .PENDING ∨ (getA s auctionId).status = .ACTIVE) →
        setAutoBid s sender time auctionId maxAmount = .error .autoBidOnEnded) ∧
    (∀ deployer ops sender time auctionId maxAmount s1 evs,
        setAutoBid (run deployer ops) sender time auctionId maxAmount = .ok (s1, evs) →
        (getA s1 auctionId).encryptedHighestBid =
          (getA (run deployer ops) auctionId).encryptedHighestBid ∧
        (getA s1 auctionId).totalBids = (getA (run deployer ops) auctionId).totalBids ∧
        (getA s1 auctionId).bidders = (getA (run deployer ops) auctionId).bidders ∧
        (getA s1 auctionId).hasBid = (getA (run deployer ops) auctionId).hasBid ∧
        (getA s1 auctionId).encryptedBids = (getA (run deployer ops) auctionId).encryptedBids ∧
        (getA s1 auctionId).status = (getA (run deployer ops) auctionId).status ∧
        (getA s1 auctionId).endTime = (getA (run deployer ops) auctionId).endTime ∧
        (getA s1 auctionId).encryptedMaxAutoBid sender =
          ⟨(run deployer ops).nextHandle, maxAmount⟩ ∧
        (getA s1 auctionId).hasAutoBid sender = true ∧
        (∀ p, ((run deployer ops).nextHandle, p) ∈ s1.acl ↔
          (p = Principal.contractAcct ∨ p = Principal.user sender)) ∧
        evs = [Event.AutoBidSet auctionId sender]) := by
  refine ⟨?_, ?_, ?_⟩
  · intro s sender time auctionId maxAmount
    rw [setAutoBid_ok_iff]
    unfold setAutoBidPre
    exact Iff.rfl
  · intro s sender time auctionId maxAmount h1 h2 h3
    simp [setAutoBid, h1, h2, h3]
  · intro deployer ops sender time auctionId maxAmount s1 evs hcall
    have hok : txOk (setAutoBid (run deployer ops) sender time auctionId maxAmount) = true := by
      rw [hcall]; rfl
    have hpre := (setAutoBid_ok_iff (run deployer ops) sender time auctionId maxAmount).1 hok
    rw [setAutoBid_eq_of_pre (run deployer ops) sender time auctionId maxAmount hpre] at hcall
    injection hcall with hpair
    injection hpair with hA hB
    subst hA
    subst hB
    have hget : getA (abState (run deployer ops) sender auctionId maxAmount) auctionId =
        { getA (run deployer ops) auctionId with
          encryptedMaxAutoBid := updF (getA (run deployer ops) auctionId).encryptedMaxAutoBid
            sender ⟨(run deployer ops).nextHandle, maxAmount⟩,
          hasAutoBid := updF (getA (run deployer ops) auctionId).hasAutoBid sender true } := by
      rw [getA_set_cases (run deployer ops) _ auctionId _ rfl hpre.1 auctionId, if_pos rfl]
    rw [hget]
    refine ⟨rfl, rfl, rfl, rfl, rfl, rfl, rfl, by simp [updF], by simp [updF], ?_, rfl⟩
    intro p
    have hacl : (abState (run deployer ops) sender auctionId maxAmount).acl =
        ((run deployer ops).nextHandle, Principal.contractAcct) ::
        ((run deployer ops).nextHandle, Principal.user sender) ::
        (run deployer ops).acl := rfl
    rw [hacl]
    constructor
    · intro hm
      rcases List.mem_cons.1 hm with hm | hm
      · exact Or.inl (congrArg Prod.snd hm)
      · rcases List.mem_cons.1 hm with hm | hm
        · exact Or.inr (congrArg Prod.snd hm)
        · exfalso
          have := aclWf_run deployer ops _ hm
          simp at this
    · intro hp
      rcases hp with hp | hp
      · subst hp
        exact List.mem_cons_self _ _
      · subst hp
        exact List.mem_cons_of_mem _ (List.mem_cons_self _ _)

/-- Witness for C2 (amended) on a PENDING auction. -/
theorem C2_setAutoBid_bookkeeping_only_witness :
    txOk (setAutoBid (run 0 demoOpsB) 2 500 0 9) = true ∧
    (getA (abState (run 0 demoOpsB) 2 0 9) 0).hasAutoBid 2 = true ∧
    (getA (abState (run 0 demoOpsB) 2 0 9) 0).encryptedHighestBid =
      (getA (run 0 demoOpsB) 0).encryptedHighestBid ∧
    (∀ p, ((run 0 demoOpsB).nextHandle, p) ∈ (abState (run 0 demoOpsB) 2 0 9).acl ↔
      (p = Principal.contractAcct ∨ p = Principal.user 2)) := by
  have h := setAutoBid_eq_of_pre (run 0 demoOpsB) 2 500 0 9 (by decide)
  obtain ⟨e1, e2, e3, e4, e5, e6, e7, e8, e9, e10, e11⟩ :=
    C2_setAutoBid_bookkeeping_only.2.2 0 demoOpsB 2 500 0 9 _ _ h
  exact ⟨(C2_setAutoBid_bookkeeping_only.1 (run 0 demoOpsB) 2 500 0 9).2 (by decide),
    e9, e1, e10⟩

/-- No call ever removes a handle from the publicly-decryptable set. -/
lemma publics_mono (s : ContractState) (op : Op) :
    s.publics ⊆ (applyOp s op).publics := by
  rcases applyOp_cases s op with ⟨hfail, hsame⟩ |
    ⟨sender, time, ttl, desc, img, ty, startT, endT, minInc, extT, hr, rv, hop, hpre, happ⟩ |
    ⟨sender, time, aid, amount, hop, hpre, happ⟩ |
    ⟨sender, time, aid, maxAmount, hop, hpre, happ⟩ |
    ⟨sender, time, aid, hop, hpre, happ⟩ |
    ⟨sender, time, aid, hop, hpre, happ⟩ |
    ⟨sender, time, aid, hop, hpre, happ⟩ |
    ⟨sender, auctioneer, isAuct, hop, happ⟩ |
    ⟨sender, fee, hop, happ⟩
  · rw [hsame]
    exact fun x hx => hx
  · rw [happ, caState_publics]
    exact fun x hx => hx
  · rw [happ, pbState_publics]
    exact fun x hx => hx
  · rw [happ, abState_publics]
    exact fun x hx => hx
  · rw [happ, endState_publics]
    exact fun x hx => hx
  · rw [happ, cancelState_publics]
    exact fun x hx => hx
  · rw [happ]
    have hp : (revState s aid).publics =
        if (getA s aid).hasReservePrice then
          allowPub (getA s aid).encryptedReservePrice.handle
            (allowPub (getA s aid).encryptedHighestBid.handle s.publics)
        else allowPub (getA s aid).encryptedHighestBid.handle s.publics := rfl
    rw [hp]
    split_ifs
    · exact fun x hx => allowPub_subset _ _ (allowPub_subset _ _ hx)
    · exact allowPub_subset _ _
  · rw [happ, auctState_publics]
    exact fun x hx => hx
  · rw [happ, feeState_publics]
    exact fun x hx => hx

/-- C7: when the auction is effectively ended and the caller satisfies
`canManage`, `revealResults` succeeds; calling it a second time (at any
later-or-equal timestamp) does not revert and returns the identical state;
the highest-bid handle, plus the reserve handle iff a reserve exists, are
publicly decryptable afterwards; and the escalation is one-way — no later
call sequence ever removes a handle from the public set. -/
theorem C7_reveal_idempotent :
    ∀ s sender time time2 auctionId,
      auctionId < s.auctions.length →
      ((getA s auctionId).status = .ENDED ∨ (getA s auctionId).endTime < time) →
      canManage s auctionId sender →
      time ≤ time2 →
      ∃ s1, revealResults s sender time auctionId = .ok (s1, []) ∧
        revealResults s1 sender time2 auctionId = .ok (s1, []) ∧
        (getA s1 auctionId).encryptedHighestBid.handle ∈ s1.publics ∧
        ((getA s auctionId).hasReservePrice = true →
          (getA s1 auctionId).encryptedReservePrice.handle ∈ s1.publics) ∧
        (∀ ops, ∀ h2 ∈ s1.publics, h2 ∈ (execOps s1 ops).publics) := by
  intro s sender time time2 auctionId h1 h2 h3 hle
  have hpre : revealPre s sender time auctionId := ⟨h1, h2, h3⟩
  have hga : getA (revState s auctionId) auctionId = getA s auctionId :=
    getA_eq_of_auctions s _ (revState_auctions s auctionId) auctionId
  have hgen : ∀ u : ContractState, getA u auctionId = getA s auctionId →
      (revState u auctionId).publics =
        if (getA s auctionId).hasReservePrice then
          allowPub (getA s auctionId).encryptedReservePrice.handle
            (allowPub (getA s auctionId).encryptedHighestBid.handle u.publics)
        else allowPub (getA s auctionId).encryptedHighestBid.handle u.publics := by
    intro u hu
    show (if (getA u auctionId).hasReservePrice then
        allowPub (getA u auctionId).encryptedReservePrice.handle
          (allowPub (getA u auctionId).encryptedHighestBid.handle u.publics)
      else allowPub (getA u auctionId).encryptedHighestBid.handle u.publics) = _
    rw [hu]
  have hpub1 := hgen s rfl
  have hmemHb : (getA s auctionId).encryptedHighestBid.handle ∈
      (revState s auctionId).publics := by
    rw [hpub1]
    split_ifs
    · exact allowPub_subset _ _ (mem_allowPub_self _ _)
    · exact mem_allowPub_self _ _
  have hmemRp : (getA s auctionId).hasReservePrice = true →
      (getA s auctionId).encryptedReservePrice.handle ∈
        (revState s auctionId).publics := by
    intro hR
    rw [hpub1, if_pos hR]
    exact mem_allowPub_self _ _
  have hpre2 : revealPre (revState s auctionId) sender time2 auctionId := by
    refine ⟨?_, ?_, ?_⟩
    · rw [revState_auctions]
      exact h1
    · rw [hga]
      rcases h2 with h2 | h2
      · exact Or.inl h2
      · exact Or.inr (Nat.lt_of_lt_of_le h2 hle)
    · unfold canManage at h3 ⊢
      rw [hga]
      exact h3
  have h2nd := revealResults_eq_of_pre (revState s auctionId) sender time2 auctionId hpre2
  have hpub2 : (revState (revState s auctionId) auctionId).publics =
      (revState s auctionId).publics := by
    have hr1 := hgen (revState s auctionId) hga
    rw [hr1]
    split_ifs with hR
    · rw [allowPub_eq_of_mem _ _ hmemHb,
        allowPub_eq_of_mem _ _ (hmemRp hR)]
    · rw [allowPub_eq_of_mem _ _ hmemHb]
  have hfix : revState (revState s auctionId) auctionId = revState s auctionId := by
    calc revState (revState s auctionId) auctionId
        = { revState s auctionId with
            publics := (revState (revState s auctionId) auctionId).publics } := rfl
      _ = { revState s auctionId with publics := (revState s auctionId).publics } := by
            rw [hpub2]
      _ = revState s auctionId := rfl
  rw [hfix] at h2nd
  refine ⟨revState s auctionId,
    revealResults_eq_of_pre s sender time auctionId hpre, h2nd, ?_, ?_, ?_⟩
  · rw [hga]
    exact hmemHb
  · intro hR
    rw [hga]
    exact hmemRp hR
  · intro ops h2x hx
    exact execOps_subset (fun s2 => s2.publics) publics_mono ops (revState s auctionId) hx

/-- One bid-less auction whose end time (10) will be in the past at reveal
time. -/
def demoOpsR : List Op :=
  [ Op.create 0 0 "item" "demo" "" AuctionType.ENGLISH 0 10 1 0 false 0 ]

/-- Witness for C7: revealing twice at times 20 and 30 on an auction whose
end time 10 has passed. -/
theorem C7_reveal_idempotent_witness :
    (0 < (run 0 demoOpsR).auctions.length) ∧
    ((getA (run 0 demoOpsR) 0).status = .ENDED ∨ (getA (run 0 demoOpsR) 0).endTime < 20) ∧
    canManage (run 0 demoOpsR) 0 0 ∧
    (∃ s1, revealResults (run 0 demoOpsR) 0 20 0 = .ok (s1, []) ∧
      revealResults s1 0 30 0 = .ok (s1, []) ∧
      (getA s1 0).encryptedHighestBid.handle ∈ s1.publics ∧
      ((getA (run 0 demoOpsR) 0).hasReservePrice = true →
        (getA s1 0).encryptedReservePrice.handle ∈ s1.publics) ∧
      (∀ ops, ∀ h2 ∈ s1.publics, h2 ∈ (execOps s1 ops).publics)) :=
  ⟨by decide, by decide, by decide,
   C7_reveal_idempotent (run 0 demoOpsR) 0 20 30 0 (by decide) (by decide)
     (by decide) (by decide)⟩

/-- C8: `createAuction` succeeds exactly when the caller is the owner or an
auctioneer, `startTime < endTime`, `endTime` is strictly in the future, and
`minimumBidIncrement > 0`; on success it allocates the next sequential id
(the current counter, starting from 0 at deployment), stores a fresh PENDING
record for the caller and leaves all existing records untouched (ids are
never reused — the registry only grows); a role violation reverts with the
auctioneer error (the spec's Unauthorized) and a timing violation with one
of the two time errors (the spec's InvalidTimeWindow). -/
theorem C8_createAuction_gate :
    (∀ s sender time ttl desc img ty startT endT minInc extT hr rv,
        txOk (createAuction s sender time ttl desc img ty startT endT minInc
          extT hr rv) = true ↔
          ((s.auctioneers sender = true ∨ sender = s.owner) ∧
           startT < endT ∧ time < endT ∧ 0 < minInc)) ∧
    (∀ s sender time ttl desc img ty startT endT minInc extT hr rv s1 evs,
        createAuction s sender time ttl desc img ty startT endT minInc extT hr
          rv = .ok (s1, evs) →
          s1.auctions.length = s.auctions.length + 1 ∧
          (getA s1 s.auctions.length).status = .PENDING ∧
          (getA s1 s.auctions.length).creator = sender ∧
          (getA s1 s.auctions.length).totalBids = 0 ∧
          (∀ j, j < s.auctions.length → getA s1 j = getA s j) ∧
          evs = [Event.AuctionCreated s.auctions.length ttl sender ty startT endT]) ∧
    (∀ deployer, (initialState deployer).auctions.length = 0) ∧
    (∀ s op, s.auctions.length ≤ (applyOp s op).auctions.length) ∧
    (∀ s sender time ttl desc img ty startT endT minInc extT hr rv,
        ¬(s.auctioneers sender = true ∨ sender = s.owner) →
        createAuction s sender time ttl desc img ty startT endT minInc extT hr
          rv = .error .onlyAuctioneersErr) ∧
    (∀ s sender time ttl desc img ty startT endT minInc extT hr rv,
        (s.auctioneers sender = true ∨ sender = s.owner) → ¬startT < endT →
        createAuction s sender time ttl desc img ty startT endT minInc extT hr
          rv = .error .invalidTimeRange) ∧
    (∀ s sender time ttl desc img ty startT endT minInc extT hr rv,
        (s.auctioneers sender = true ∨ sender = s.owner) → startT < endT →
        ¬time < endT →
        createAuction s sender time ttl desc img ty startT endT minInc extT hr
          rv = .error .endTimeNotFuture) := by
  refine ⟨?_, ?_, fun _ => rfl, auctions_length_mono,
    createAuction_err_role, createAuction_err_range, createAuction_err_future⟩
  · intro s sender time ttl desc img ty startT endT minInc extT hr rv
    rw [createAuction_ok_iff]
    unfold createPre
    exact Iff.rfl
  · intro s sender time ttl desc img ty startT endT minInc extT hr rv s1 evs hcall
    have hok : txOk (createAuction s sender time ttl desc img ty startT endT
        minInc extT hr rv) = true := by
      rw [hcall]; rfl
    have hpre := (createAuction_ok_iff s sender time ttl desc img ty startT endT
      minInc extT hr rv).1 hok
    rw [createAuction_eq_of_pre s sender time ttl desc img ty startT endT minInc
      extT hr rv hpre] at hcall
    injection hcall with hpair
    injection hpair with hA hB
    subst hA
    subst hB
    have hlen := caState_length s sender ttl desc img ty startT endT minInc extT hr rv
    have hnew : getA (caState s sender ttl desc img ty startT endT minInc extT hr rv)
        s.auctions.length =
        newAuctionRecord sender ttl desc img ty startT endT minInc extT hr rv
          s.nextHandle := by
      rw [getA_caState_cases]
      rw [if_neg (Nat.lt_irrefl _), if_pos rfl]
    refine ⟨hlen, ?_, ?_, ?_, ?_, rfl⟩
    · rw [hnew]; rfl
    · rw [hnew]; rfl
    · rw [hnew]; rfl
    · intro j hj
      rw [getA_caState_cases, if_pos hj]

/-- Witness for C8: the deployer creates the first auction (id 0); a
stranger's attempt reverts with the auctioneer error; a backwards window
reverts with the time-range error. -/
theorem C8_createAuction_gate_witness :
    txOk (createAuction (initialState 0) 0 0 "a" "b" "" AuctionType.ENGLISH 0
      100 1 0 false 0) = true ∧
    createAuction (initialState 0) 5 0 "a" "b" "" AuctionType.ENGLISH 0 100 1 0
      false 0 = .error .onlyAuctioneersErr ∧
    createAuction (initialState 0) 0 0 "a" "b" "" AuctionType.ENGLISH 100 50 1 0
      false 0 = .error .invalidTimeRange ∧
    createAuction (initialState 0) 0 200 "a" "b" "" AuctionType.ENGLISH 0 100 1 0
      false 0 = .error .endTimeNotFuture ∧
    (initialState 0).auctions.length = 0 :=
  ⟨(C8_createAuction_gate.1 (initialState 0) 0 0 "a" "b" "" AuctionType.ENGLISH
      0 100 1 0 false 0).2 (by decide),
   C8_createAuction_gate.2.2.2.2.1 (initialState 0) 5 0 "a" "b" ""
     AuctionType.ENGLISH 0 100 1 0 false 0 (by decide),
   C8_createAuction_gate.2.2.2.2.2.1 (initialState 0) 0 0 "a" "b" ""
     AuctionType.ENGLISH 100 50 1 0 false 0 (by decide) (by decide),
   C8_createAuction_gate.2.2.2.2.2.2 (initialState 0) 0 200 "a" "b" ""
     AuctionType.ENGLISH 0 100 1 0 false 0 (by decide) (by decide) (by decide),
   C8_createAuction_gate.2.2.1 0⟩

end ConfAuction
